import Mathlib

/-!
Verification development for the `scpi-instrument-toolkit` interactive shell
(`lab_instruments/repl.py`).  The shallow embedding below translates the
script-expansion engine (`_expand_script_lines`, `_substitute_vars`), the
restricted expression evaluator (`_safe_eval`), the device-role resolver
(`_resolve_device_type`), the registry/selection state operations (`scan`,
`do_use`, `do_close`), the bulk state controller (`_safe_all`, `_reset_all`)
and the one-shot shutdown guard (`_cleanup_on_exit`, `_cleanup_on_interrupt`)
into executable Lean definitions, and proves or refutes the specification
claims about them.

Modelling conventions:
* Python strings are Lean `String`s; `shlex.split` (the stdlib tokenizer the
  code calls) is embedded as `shlexSplit` with posix quoting rules, and a
  tokenization `ValueError` is an `Except.error` (the Python code does not
  catch it inside `_expand_script_lines`).
* Python numbers are modelled as exact rationals (`Rat`).  Integer/float
  arithmetic on the fragment the claims touch coincides with rational
  arithmetic; float-specific rendering (`str(2.5)`) and irrational powers
  (`2 ** 0.5`) are outside the rational model and are noted where they are
  abstracted.  No claim depends on them.
* Fallible operations return `Except String _`; an uncaught Python exception
  is an `Except.error` value.
-/

/-! ### Character constants and basic string helpers -/

def dollarChar : Char := '$'

def braceOpenChar : Char := Char.ofNat 123

def braceCloseChar : Char := Char.ofNat 125

def dquoteChar : Char := Char.ofNat 34

def squoteChar : Char := Char.ofNat 39

def bslashChar : Char := Char.ofNat 92

def isWsChar (c : Char) : Bool :=
  c = ' ' || c = Char.ofNat 9 || c = Char.ofNat 13 || c = Char.ofNat 10

/-- Model of `shlex.split` (posix mode), the tokenizer used by `_parse_args`
and `_expand_script_lines`: whitespace-separated tokens, single quotes taking
everything literally, double quotes in which a backslash escapes only the
quote and the backslash, a bare backslash escaping the next character, and a
`ValueError` (here `Except.error`) on an unterminated quote or escape. -/
def shlexRun : List Char → List Char → Bool → List String → Except String (List String)
  | [], acc, inTok, toks =>
    if inTok then .ok (toks ++ [String.mk acc.reverse]) else .ok toks
  | c :: cs, acc, inTok, toks =>
    if isWsChar c then
      if inTok then shlexRun cs [] false (toks ++ [String.mk acc.reverse])
      else shlexRun cs [] false toks
    else if c = squoteChar then
      shlexSingle cs acc toks
    else if c = dquoteChar then
      shlexDouble cs acc toks
    else if c = bslashChar then
      match cs with
      | [] => .error "No escaped character"
      | e :: cs2 => shlexRun cs2 (e :: acc) true toks
    else
      shlexRun cs (c :: acc) true toks
where
  shlexSingle : List Char → List Char → List String → Except String (List String)
  | [], _, _ => .error "No closing quotation"
  | c :: cs, acc, toks =>
    if c = squoteChar then shlexRun cs acc true toks
    else shlexSingle cs (c :: acc) toks
  shlexDouble : List Char → List Char → List String → Except String (List String)
  | [], _, _ => .error "No closing quotation"
  | c :: cs, acc, toks =>
    if c = dquoteChar then shlexRun cs acc true toks
    else if c = bslashChar then
      match cs with
      | [] => .error "No escaped character"
      | e :: cs2 =>
        if e = dquoteChar || e = bslashChar then shlexDouble cs2 (e :: acc) toks
        else shlexDouble cs2 (e :: c :: acc) toks
    else shlexDouble cs (c :: acc) toks

def shlexSplit (s : String) : Except String (List String) :=
  shlexRun s.data [] false []

/-- `takesLead pat s` holds when `pat` occurs at the start of `s`. -/
def takesLead : List Char → List Char → Bool
  | [], _ => true
  | _ :: _, [] => false
  | p :: ps, c :: cs => p = c && takesLead ps cs

/-- Model of Python `str.replace`: replace every non-overlapping occurrence of
`pat`, scanning left to right.  The fuel argument (instantiated with the
string length, which always suffices since a match consumes at least one
character) keeps the recursion structural. -/
def replaceGo (pat rep : List Char) : Nat → List Char → List Char
  | _, [] => []
  | 0, s => s
  | fuel + 1, c :: cs =>
    if pat ≠ [] ∧ takesLead pat (c :: cs) then
      rep ++ replaceGo pat rep fuel ((c :: cs).drop pat.length)
    else
      c :: replaceGo pat rep fuel cs

def replaceList (pat rep s : List Char) : List Char :=
  replaceGo pat rep s.length s

/-- `str.strip()`: drop leading and trailing whitespace.  (Core `String.trim`
is not kernel-reducible, so the embedding works on the character list.) -/
def strTrim (s : String) : String :=
  String.mk (((s.data.dropWhile isWsChar).reverse.dropWhile isWsChar).reverse)

/-- `str.lower()` on the ASCII range the commands use. -/
def strLower (s : String) : String :=
  String.mk (s.data.map Char.toLower)

/-- `str.startswith(pat)`. -/
def strStartsWith (s pat : String) : Bool :=
  takesLead pat.data s.data

/-- Python `sep.join`-style concatenation with single spaces, used for
`" ".join(tokens)`. -/
def joinSp : List String → String
  | [] => ""
  | [t] => t
  | t :: rest => String.mk (t.data ++ ' ' :: (joinSp rest).data)

/-- `"," in s` / `"=" in s`-style membership. -/
def strHasChar (s : String) (c : Char) : Bool :=
  s.data.contains c

/-- `s.split(sep)` for a single-character separator (Python semantics:
`"".split(",") = [""]`, empty pieces kept). -/
def splitOnChar (sep : Char) (s : String) : List String :=
  go s.data []
where
  go : List Char → List Char → List String
  | [], acc => [String.mk acc.reverse]
  | c :: cs, acc => if c = sep then String.mk acc.reverse :: go cs [] else go cs (c :: acc)

/-- `s.split(sep, 1)`: split at the first occurrence only. -/
def splitFirst (sep : Char) (s : String) : String × String :=
  go s.data []
where
  go : List Char → List Char → String × String
  | [], acc => (String.mk acc.reverse, "")
  | c :: cs, acc => if c = sep then (String.mk acc.reverse, String.mk cs) else go cs (c :: acc)

/-! ### Variable environments (insertion-ordered, like Python dicts) -/

abbrev Env := List (String × String)

/-- Python `dict` assignment: updating an existing key keeps its position,
a new key is appended at the end. -/
def envInsert (k v : String) : Env → Env
  | [] => [(k, v)]
  | (k0, v0) :: rest => if k0 = k then (k0, v) :: rest else (k0, v0) :: envInsert k v rest

/-- The pattern text replaced for a variable: the characters of `"${name}"`. -/
def substPattern (name : String) : List Char :=
  dollarChar :: braceOpenChar :: name.data ++ [braceCloseChar]

/-- Model of `_substitute_vars`: for each `(name, value)` pair, in the
environment's insertion order, replace every occurrence of `${name}` with
`value` (values are already strings in the environment, matching
`str(value)` in the source). -/
def substitute_vars (text : String) (vars : Env) : String :=
  vars.foldl (fun acc p => String.mk (replaceList (substPattern p.1) p.2.data acc.data)) text

/-! ### Exact rational numbers with kernel-computable normalization

Python's numeric values on the fragment the claims exercise (ints and finite
decimal floats under `+ - * / % **`) behave as exact rationals.  Mathlib's
`Rat` normalizes through `Nat.gcd`, which the kernel cannot reduce, so the
embedding carries its own normalized rational type whose operations evaluate
by `rfl`/`decide`.  The representation is always kept normalized (positive
denominator, coprime), so structural equality is value equality. -/

def natGcdGo : Nat → Nat → Nat → Nat
  | 0, a, b => a + b
  | fuel + 1, a, b => if a = 0 then b else natGcdGo fuel (b % a) a

/-- Euclid's algorithm with structural fuel (`a` steps always suffice). -/
def natGcd (a b : Nat) : Nat :=
  natGcdGo (a + 1) a b

structure Q where
  n : Int
  d : Nat
  deriving DecidableEq, Repr

/-- Build a normalized rational from a numerator and a (nonzero) denominator. -/
def mkQ (num den : Int) : Q :=
  if den = 0 then ⟨0, 1⟩
  else
    let n1 : Int := if den < 0 then -num else num
    let dn : Nat := den.natAbs
    let g : Nat := natGcd n1.natAbs dn
    ⟨n1 / (g : Int), dn / g⟩

def qOfInt (k : Int) : Q := ⟨k, 1⟩

def qZero : Q := ⟨0, 1⟩

def qAdd (a b : Q) : Q := mkQ (a.n * (b.d : Int) + b.n * (a.d : Int)) ((a.d : Int) * (b.d : Int))

def qSub (a b : Q) : Q := mkQ (a.n * (b.d : Int) - b.n * (a.d : Int)) ((a.d : Int) * (b.d : Int))

def qMul (a b : Q) : Q := mkQ (a.n * b.n) ((a.d : Int) * (b.d : Int))

def qDiv (a b : Q) : Q := mkQ (a.n * (b.d : Int)) ((a.d : Int) * b.n)

def qNeg (a : Q) : Q := ⟨-a.n, a.d⟩

def qAbs (a : Q) : Q := ⟨|a.n|, a.d⟩

def qLe (a b : Q) : Bool := a.n * (b.d : Int) ≤ b.n * (a.d : Int)

def qLt (a b : Q) : Bool := a.n * (b.d : Int) < b.n * (a.d : Int)

def qMin (a b : Q) : Q := if qLe a b then a else b

def qMax (a b : Q) : Q := if qLe a b then b else a

def qFloor (a : Q) : Int := Int.fdiv a.n (a.d : Int)

def qPowNat (a : Q) : Nat → Q
  | 0 => ⟨1, 1⟩
  | k + 1 => qMul a (qPowNat a k)

def qInv (a : Q) : Q := mkQ (a.d : Int) a.n

def qPowInt (a : Q) (k : Int) : Q :=
  if 0 ≤ k then qPowNat a k.toNat else qInv (qPowNat a k.natAbs)

/-! ### Numeric string parsing (Python `int(...)` / `float(...)`) -/

def digitVal (c : Char) : Nat := c.toNat - 48

def natOfDigits (ds : List Char) : Nat :=
  ds.foldl (fun acc c => acc * 10 + digitVal c) 0

/-- Model of Python `int(s)` for the forms the scripts use: optional
surrounding whitespace, optional sign, a nonempty digit string.
(Underscore separators are not modelled; no claim uses them.) -/
def parseIntStr (s : String) : Option Int :=
  let cs := (strTrim s).data
  let (sign, rest) : Int × List Char :=
    match cs with
    | c :: cs2 => if c = '-' then (-1, cs2) else if c = '+' then (1, cs2) else (1, cs)
    | [] => (1, [])
  if rest ≠ [] ∧ rest.all Char.isDigit then
    some (sign * (natOfDigits rest : Int))
  else
    none

/-- Model of Python `float(s)` on finite decimal forms: optional surrounding
whitespace, optional sign, digits with an optional fractional part and an
optional decimal exponent; at least one mantissa digit is required.
(`inf`/`nan`/underscores/hex are not modelled; no claim touches them.) -/
def parseFloatStr (s : String) : Option Q :=
  let cs := (strTrim s).data
  let (sgn, rest) : Int × List Char :=
    match cs with
    | c :: cs2 => if c = '-' then (-1, cs2) else if c = '+' then (1, cs2) else (1, cs)
    | [] => (1, [])
  let ipart := rest.takeWhile Char.isDigit
  let afterI := rest.dropWhile Char.isDigit
  let (fpart, afterF) : List Char × List Char :=
    match afterI with
    | c :: cs2 => if c = '.' then (cs2.takeWhile Char.isDigit, cs2.dropWhile Char.isDigit)
                  else ([], afterI)
    | [] => ([], [])
  let hadDot : Bool := afterI.head? = some '.'
  if ipart = [] ∧ fpart = [] then none
  else
    let mant : Q := mkQ (sgn * ((natOfDigits ipart * 10 ^ fpart.length + natOfDigits fpart : Nat) : Int))
                        ((10 ^ fpart.length : Nat) : Int)
    let expTail := if hadDot then afterF else afterI
    match expTail with
    | [] => some mant
    | c :: cs2 =>
      if c = 'e' ∨ c = 'E' then
        let (esign, edigits) : Int × List Char :=
          match cs2 with
          | d :: ds => if d = '-' then (-1, ds) else if d = '+' then (1, ds) else (1, cs2)
          | [] => (1, [])
        if edigits ≠ [] ∧ edigits.all Char.isDigit then
          some (qMul mant (qPowInt (qOfInt 10) (esign * (natOfDigits edigits : Int))))
        else none
      else none

/-! ### The restricted expression evaluator `_safe_eval`

The Python code parses the expression with `ast.parse(expr, mode="eval")`
(standard library) and then walks the tree with the nested `_eval`.  The AST
fragment reachable in `mode="eval"` is embedded below; node kinds the walker
does not special-case (attribute access, boolean/comparison operators,
comprehensions, ...) all hit its final `raise ValueError("Expression not
allowed.")`, so they are represented by dedicated constructors whose
evaluation errors without looking at the children, exactly like the source.
`ast.Constant` payloads are restricted to the numeric and string literals the
claims exercise. -/

inductive BOp where
  | add | sub | mul | div | pow | mod
  | floordiv | bitand
  deriving DecidableEq, Repr

inductive UOp where
  | pos | neg | boolnot | invert
  deriving DecidableEq, Repr

inductive ConstV where
  | cnum : Q → ConstV
  | cstr : String → ConstV
  deriving DecidableEq, Repr

inductive FName where
  | fabs | fmin | fmax | fround
  deriving DecidableEq, Repr

mutual

inductive Expr where
  | lit : ConstV → Expr
  | name : String → Expr
  | binop : BOp → Expr → Expr → Expr
  | unop : UOp → Expr → Expr
  | subscript : Expr → Expr → Expr
  | call : Expr → ArgL → Expr
  | attrAccess : Expr → String → Expr
  | boolop : Expr → Expr → Expr
  | compare : Expr → Expr → Expr
  | comprehension : Expr
  deriving DecidableEq, Repr

inductive ArgL where
  | anil : ArgL
  | acons : Expr → ArgL → ArgL
  deriving DecidableEq, Repr

end

/-- Dictionary keys (Python dict keys reachable here are numbers and strings). -/
inductive KeyV where
  | knum : Q → KeyV
  | kstr : String → KeyV
  deriving DecidableEq, Repr

mutual

/-- Runtime values of `_safe_eval`: numbers, dictionaries, and the four
allowlisted builtin functions (the only function objects reachable). -/
inductive Value where
  | num : Q → Value
  | dict : EntryL → Value
  | fn : FName → Value
  deriving DecidableEq, Repr

inductive EntryL where
  | enil : EntryL
  | econs : KeyV → Value → EntryL → EntryL
  deriving DecidableEq, Repr

end

abbrev NTable := List (String × Value)

def lookupN : NTable → String → Option Value
  | [], _ => none
  | (k, v) :: rest, n => if k = n then some v else lookupN rest n

/-- The `allowed_funcs` table of `_safe_eval`. -/
def allowedFnName : String → Option FName
  | "abs" => some .fabs
  | "min" => some .fmin
  | "max" => some .fmax
  | "round" => some .fround
  | _ => none

def keyOfConst : ConstV → KeyV
  | .cnum q => .knum q
  | .cstr s => .kstr s

def entryLookup : EntryL → KeyV → Except String Value
  | .enil, _ => .error "KeyError"
  | .econs k v rest, key => if k = key then .ok v else entryLookup rest key

/-- Python `%` on numbers: sign follows the divisor (`a - b * floor(a / b)`);
`ZeroDivisionError` on a zero divisor. -/
def pyMod (a b : Q) : Except String Value :=
  if b = qZero then .error "ZeroDivisionError"
  else .ok (.num (qSub a (qMul b (qOfInt (qFloor (qDiv a b))))))

/-- Python `**` on numbers, within the rational model: integer exponents are
exact; a fractional exponent (an irrational power in general) is outside the
rational value model and is reported as an error here.  No claim evaluates a
fractional power. -/
def pyPow (a b : Q) : Except String Value :=
  if b.d = 1 then
    if a = qZero ∧ b.n < 0 then .error "ZeroDivisionError"
    else .ok (.num (qPowInt a b.n))
  else .error "non-integer exponent outside the rational model"

def applyBin (op : BOp) (l r : Value) : Except String Value :=
  match l, r with
  | .num a, .num b =>
    match op with
    | .add => .ok (.num (qAdd a b))
    | .sub => .ok (.num (qSub a b))
    | .mul => .ok (.num (qMul a b))
    | .div => if b = qZero then .error "ZeroDivisionError" else .ok (.num (qDiv a b))
    | .pow => pyPow a b
    | .mod => pyMod a b
    | .floordiv => .error "Operator not allowed."
    | .bitand => .error "Operator not allowed."
  | _, _ =>
    match op with
    | .floordiv => .error "Operator not allowed."
    | .bitand => .error "Operator not allowed."
    | _ => .error "TypeError: unsupported operand"

def applyUn (op : UOp) (v : Value) : Except String Value :=
  match op with
  | .pos => match v with | .num a => .ok (.num a) | _ => .error "TypeError: bad operand"
  | .neg => match v with | .num a => .ok (.num (qNeg a)) | _ => .error "TypeError: bad operand"
  | .boolnot => .error "Unary operator not allowed."
  | .invert => .error "Unary operator not allowed."

/-- Round half to even (Python's `round`), at integer precision. -/
def halfEven (q : Q) : Int :=
  let f : Int := qFloor q
  let r : Q := qSub q (qOfInt f)
  if qLt r (mkQ 1 2) then f
  else if qLt (mkQ 1 2) r then f + 1
  else if f % 2 = 0 then f else f + 1

/-- `round(x, n)` for an integer `n`. -/
def roundTo (q : Q) (n : Int) : Q :=
  qDiv (qOfInt (halfEven (qMul q (qPowInt (qOfInt 10) n)))) (qPowInt (qOfInt 10) n)

def numArgs : List Value → Option (List Q)
  | [] => some []
  | .num q :: rest => (numArgs rest).map (q :: ·)
  | _ => none

/-- Application of the four allowlisted builtins, with Python's arity and
type failures (`TypeError`) as errors: `abs` takes one number; `min`/`max`
take at least two numbers (a single argument would have to be an iterable);
`round` takes one number and an optional integer digit count. -/
def applyFn (g : FName) (args : List Value) : Except String Value :=
  match g with
  | .fabs =>
    match args with
    | [.num q] => .ok (.num (qAbs q))
    | _ => .error "TypeError: abs"
  | .fmin =>
    match numArgs args with
    | some (q :: qs) =>
      if qs.isEmpty then .error "TypeError: min" else .ok (.num (qs.foldl qMin q))
    | _ => .error "TypeError: min"
  | .fmax =>
    match numArgs args with
    | some (q :: qs) =>
      if qs.isEmpty then .error "TypeError: max" else .ok (.num (qs.foldl qMax q))
    | _ => .error "TypeError: max"
  | .fround =>
    match args with
    | [.num q] => .ok (.num (qOfInt (halfEven q)))
    | [.num q, .num n] =>
      if n.d = 1 then .ok (.num (roundTo q n.n)) else .error "TypeError: round"
    | _ => .error "TypeError: round"

mutual

/-- The tree walker `_eval` inside `_safe_eval`, case for case:
* numeric constants evaluate to themselves, any other constant errors;
* a name is looked up in `names` first, then in `allowed_funcs`;
* the six arithmetic operators evaluate both sides first, then apply
  (an operator outside the set errors after evaluating the children);
* unary `+`/`-` evaluate the operand first;
* a subscript evaluates the base, requires it to be a dictionary, and takes
  the key from a constant slice verbatim, from a name slice as that name's
  text, and otherwise by evaluating the slice expression;
* a call evaluates the callee, then the arguments, and applies only a value
  that is one of the allowlisted builtins;
* every other node kind errors without evaluating its children. -/
def evalE (names : NTable) : Expr → Except String Value
  | .lit (.cnum q) => .ok (.num q)
  | .lit (.cstr _) => .error "Only numeric constants are allowed."
  | .name n =>
    match lookupN names n with
    | some v => .ok v
    | none =>
      match allowedFnName n with
      | some g => .ok (.fn g)
      | none => .error "Unknown name."
  | .binop op l r =>
    match evalE names l with
    | .error e => .error e
    | .ok lv =>
      match evalE names r with
      | .error e => .error e
      | .ok rv => applyBin op lv rv
  | .unop op a =>
    match evalE names a with
    | .error e => .error e
    | .ok v => applyUn op v
  | .subscript b s =>
    match evalE names b with
    | .error e => .error e
    | .ok bv =>
      match bv with
      | .dict entries =>
        match s with
        | .lit c => entryLookup entries (keyOfConst c)
        | .name n => entryLookup entries (.kstr n)
        | _ =>
          match evalE names s with
          | .error e => .error e
          | .ok kv =>
            match kv with
            | .num q => entryLookup entries (.knum q)
            | _ => .error "TypeError: unhashable key"
      | _ => .error "Subscript base must be a dict."
  | .call f args =>
    match evalE names f with
    | .error e => .error e
    | .ok fv =>
      match evalArgs names args with
      | .error e => .error e
      | .ok avs =>
        match fv with
        | .fn g => applyFn g avs
        | _ => .error "Function not allowed."
  | .attrAccess _ _ => .error "Expression not allowed."
  | .boolop _ _ => .error "Expression not allowed."
  | .compare _ _ => .error "Expression not allowed."
  | .comprehension => .error "Expression not allowed."

def evalArgs (names : NTable) : ArgL → Except String (List Value)
  | .anil => .ok []
  | .acons a rest =>
    match evalE names a with
    | .error e => .error e
    | .ok v =>
      match evalArgs names rest with
      | .error e => .error e
      | .ok vs => .ok (v :: vs)

end

/-- The slice-key computation of the subscript case, as a standalone view of
the inline match in `evalE`: a constant slice is used as the key verbatim, a
name slice contributes its text as a string key, and any other slice
expression is evaluated (a non-numeric result is an unhashable / missing key
error). -/
def evalSliceKey (names : NTable) (entries : EntryL) : Expr → Except String Value
  | .lit c => entryLookup entries (keyOfConst c)
  | .name n => entryLookup entries (.kstr n)
  | s =>
    match evalE names s with
    | .error e => .error e
    | .ok kv =>
      match kv with
      | .num q => entryLookup entries (.knum q)
      | _ => .error "TypeError: unhashable key"

theorem evalE_subscript_eq (names : NTable) (b s : Expr) :
    evalE names (.subscript b s) =
      (match evalE names b with
       | .error e => .error e
       | .ok (.dict entries) => evalSliceKey names entries s
       | .ok _ => .error "Subscript base must be a dict.") := by
  rw [evalE]
  cases evalE names b with
  | error e => rfl
  | ok bv =>
    cases bv with
    | num q => rfl
    | fn g => rfl
    | dict entries => cases s <;> rfl

/-! ### Parsing expression strings

`_safe_eval` calls the standard library `ast.parse(expr, mode="eval")`; a
`SyntaxError` propagates out of `_safe_eval` (every caller catches all
exceptions).  The tokenizer/precedence climber below covers the grammar
fragment the claims exercise: decimal numbers, names, string literals,
`+ - * / % **` with the Python precedences (plus `//`, `&`, `< > == != and
or`, which parse to nodes the walker rejects), parentheses, calls, attribute
access, and subscripts.  Inputs outside the fragment fail to parse, which
from the caller's point of view coincides with a `SyntaxError` (both are
`Except.error`). -/

inductive TokK where
  | tnum : Q → TokK
  | tname : String → TokK
  | tstr : String → TokK
  | tsym : String → TokK
  deriving DecidableEq, Repr

def isNameStart (c : Char) : Bool := c.isAlpha || c = '_'

def isNameChar (c : Char) : Bool := c.isAlphanum || c = '_'

/-- Lex one number token: digits, optional fraction. -/
def lexNum (cs : List Char) : Q × List Char :=
  let ipart := cs.takeWhile Char.isDigit
  let afterI := cs.dropWhile Char.isDigit
  match afterI with
  | '.' :: cs2 =>
    let fpart := cs2.takeWhile Char.isDigit
    let afterF := cs2.dropWhile Char.isDigit
    (mkQ ((natOfDigits ipart * 10 ^ fpart.length + natOfDigits fpart : Nat) : Int)
         ((10 ^ fpart.length : Nat) : Int), afterF)
  | _ => (qOfInt (natOfDigits ipart : Int), afterI)

def lexQuoted (q : Char) : List Char → Option (String × List Char)
  | [] => none
  | c :: cs => if c = q then some ("", cs)
               else (lexQuoted q cs).map (fun p => (String.mk (c :: p.1.data), p.2))

def tokGo : Nat → List Char → Option (List TokK)
  | _, [] => some []
  | 0, _ => none
  | fuel + 1, c :: cs =>
    if isWsChar c then tokGo fuel cs
    else if c.isDigit then
      let (q, rest) := lexNum (c :: cs)
      (tokGo fuel rest).map (.tnum q :: ·)
    else if isNameStart c then
      let nm := (c :: cs).takeWhile isNameChar
      let rest := (c :: cs).dropWhile isNameChar
      (tokGo fuel rest).map (.tname (String.mk nm) :: ·)
    else if c = squoteChar ∨ c = dquoteChar then
      match lexQuoted c cs with
      | none => none
      | some (s, rest) => (tokGo fuel rest).map (.tstr s :: ·)
    else if c = '*' then
      match cs with
      | '*' :: cs2 => (tokGo fuel cs2).map (.tsym "**" :: ·)
      | _ => (tokGo fuel cs).map (.tsym "*" :: ·)
    else if c = '/' then
      match cs with
      | '/' :: cs2 => (tokGo fuel cs2).map (.tsym "//" :: ·)
      | _ => (tokGo fuel cs).map (.tsym "/" :: ·)
    else if c = '=' then
      match cs with
      | '=' :: cs2 => (tokGo fuel cs2).map (.tsym "==" :: ·)
      | _ => none
    else if c = '!' then
      match cs with
      | '=' :: cs2 => (tokGo fuel cs2).map (.tsym "!=" :: ·)
      | _ => none
    else if c = '+' ∨ c = '-' ∨ c = '%' ∨ c = '(' ∨ c = ')' ∨ c = '[' ∨ c = ']' ∨
            c = ',' ∨ c = '<' ∨ c = '>' ∨ c = '&' ∨ c = '.' then
      (tokGo fuel cs).map (.tsym (String.mk [c]) :: ·)
    else none

def tokenizeArith (s : String) : Option (List TokK) :=
  tokGo s.data.length s.data

/-! Precedence-climbing parser.  Every recursive call decreases the fuel, so
the recursion is structural; fuel linear in the token count suffices for the
inputs the claims evaluate. -/

mutual

def pBool : Nat → List TokK → Option (Expr × List TokK)
  | 0, _ => none
  | fuel + 1, ts =>
    match pCmp fuel ts with
    | none => none
    | some (e, rest) => pBoolTail fuel e rest

def pBoolTail : Nat → Expr → List TokK → Option (Expr × List TokK)
  | 0, _, _ => none
  | fuel + 1, e, ts =>
    match ts with
    | .tname op :: rest =>
      if op = "and" ∨ op = "or" then
        match pCmp fuel rest with
        | none => none
        | some (r, rest2) => pBoolTail fuel (.boolop e r) rest2
      else some (e, ts)
    | _ => some (e, ts)

def pCmp : Nat → List TokK → Option (Expr × List TokK)
  | 0, _ => none
  | fuel + 1, ts =>
    match pAdd fuel ts with
    | none => none
    | some (e, rest) =>
      match rest with
      | .tsym op :: rest2 =>
        if op = "<" ∨ op = ">" ∨ op = "==" ∨ op = "!=" then
          match pAdd fuel rest2 with
          | none => none
          | some (r, rest3) => some (.compare e r, rest3)
        else some (e, rest)
      | _ => some (e, rest)

def pAdd : Nat → List TokK → Option (Expr × List TokK)
  | 0, _ => none
  | fuel + 1, ts =>
    match pMul fuel ts with
    | none => none
    | some (e, rest) => pAddTail fuel e rest

def pAddTail : Nat → Expr → List TokK → Option (Expr × List TokK)
  | 0, _, _ => none
  | fuel + 1, e, ts =>
    match ts with
    | .tsym op :: rest =>
      if op = "+" ∨ op = "-" then
        match pMul fuel rest with
        | none => none
        | some (r, rest2) =>
          pAddTail fuel (.binop (if op = "+" then .add else .sub) e r) rest2
      else some (e, ts)
    | _ => some (e, ts)

def pMul : Nat → List TokK → Option (Expr × List TokK)
  | 0, _ => none
  | fuel + 1, ts =>
    match pFactor fuel ts with
    | none => none
    | some (e, rest) => pMulTail fuel e rest

def pMulTail : Nat → Expr → List TokK → Option (Expr × List TokK)
  | 0, _, _ => none
  | fuel + 1, e, ts =>
    match ts with
    | .tsym op :: rest =>
      if op = "*" ∨ op = "/" ∨ op = "%" ∨ op = "//" ∨ op = "&" then
        match pFactor fuel rest with
        | none => none
        | some (r, rest2) =>
          let bop : BOp :=
            if op = "*" then .mul else if op = "/" then .div
            else if op = "%" then .mod else if op = "//" then .floordiv else .bitand
          pMulTail fuel (.binop bop e r) rest2
      else some (e, ts)
    | _ => some (e, ts)

def pFactor : Nat → List TokK → Option (Expr × List TokK)
  | 0, _ => none
  | fuel + 1, ts =>
    match ts with
    | .tsym op :: rest =>
      if op = "+" ∨ op = "-" then
        match pFactor fuel rest with
        | none => none
        | some (e, rest2) => some (.unop (if op = "+" then .pos else .neg) e, rest2)
      else pPower fuel ts
    | _ => pPower fuel ts

def pPower : Nat → List TokK → Option (Expr × List TokK)
  | 0, _ => none
  | fuel + 1, ts =>
    match pAtomTrail fuel ts with
    | none => none
    | some (e, rest) =>
      match rest with
      | .tsym "**" :: rest2 =>
        match pFactor fuel rest2 with
        | none => none
        | some (r, rest3) => some (.binop .pow e r, rest3)
      | _ => some (e, rest)

def pAtomTrail : Nat → List TokK → Option (Expr × List TokK)
  | 0, _ => none
  | fuel + 1, ts =>
    match pAtom fuel ts with
    | none => none
    | some (e, rest) => pTrail fuel e rest

def pAtom : Nat → List TokK → Option (Expr × List TokK)
  | 0, _ => none
  | fuel + 1, ts =>
    match ts with
    | .tnum q :: rest => some (.lit (.cnum q), rest)
    | .tstr s :: rest => some (.lit (.cstr s), rest)
    | .tname n :: rest => some (.name n, rest)
    | .tsym "(" :: rest =>
      match pBool fuel rest with
      | none => none
      | some (e, rest2) =>
        match rest2 with
        | .tsym ")" :: rest3 => some (e, rest3)
        | _ => none
    | _ => none

def pTrail : Nat → Expr → List TokK → Option (Expr × List TokK)
  | 0, _, _ => none
  | fuel + 1, e, ts =>
    match ts with
    | .tsym "(" :: rest =>
      match rest with
      | .tsym ")" :: rest2 => pTrail fuel (.call e .anil) rest2
      | _ =>
        match pArgsList fuel rest with
        | none => none
        | some (args, rest2) =>
          match rest2 with
          | .tsym ")" :: rest3 => pTrail fuel (.call e args) rest3
          | _ => none
    | .tsym "[" :: rest =>
      match pBool fuel rest with
      | none => none
      | some (ix, rest2) =>
        match rest2 with
        | .tsym "]" :: rest3 => pTrail fuel (.subscript e ix) rest3
        | _ => none
    | .tsym "." :: .tname fld :: rest => pTrail fuel (.attrAccess e fld) rest
    | _ => some (e, ts)

def pArgsList : Nat → List TokK → Option (ArgL × List TokK)
  | 0, _ => none
  | fuel + 1, ts =>
    match pBool fuel ts with
    | none => none
    | some (e, rest) =>
      match rest with
      | .tsym "," :: rest2 =>
        match pArgsList fuel rest2 with
        | none => none
        | some (args, rest3) => some (.acons e args, rest3)
      | _ => some (.acons e .anil, rest)

end

/-- Model of `ast.parse(expr, mode="eval")` on the embedded fragment. -/
def parseArith (s : String) : Option Expr :=
  match tokenizeArith s with
  | none => none
  | some toks =>
    match pBool (8 * (toks.length + 1)) toks with
    | none => none
    | some (e, rest) => if rest.isEmpty then some e else none

/-- `_safe_eval` on an expression string: parse, then walk the tree.
A parse failure models the `SyntaxError` that `ast.parse` raises. -/
def safe_eval (expr : String) (names : NTable) : Except String Value :=
  match parseArith expr with
  | none => .error "SyntaxError"
  | some e => evalE names e

/-! ### The script expander `_expand_script_lines`

The expander takes the script table (`self.scripts`), the recursion depth,
the list of raw lines and the variable environment, and produces the flat
list of expanded command lines together with the list of error messages
reported along the way (`ColorPrinter.error` calls).  A `ValueError` raised
by `shlex.split` — which the source does NOT catch here — aborts the whole
expansion and is an `Except.error`. -/

abbrev Scripts := List (String × List String)

def lookupScript : Scripts → String → Option (List String)
  | [], _ => none
  | (k, v) :: rest, n => if k = n then some v else lookupScript rest n

def maxDepthMsg : String := "Maximum script call depth (10) exceeded."

def callNotFoundMsg (name : String) : String :=
  "call: script " ++ name ++ " not found."

def repeatCountMsg (tok : String) : String :=
  "repeat: expected integer count, got " ++ tok

def forMismatchMsg : String := "for: var list and value list length mismatch."

/-- Kernel-reducible decimal rendering of naturals. -/
def natToStrGo : Nat → Nat → List Char → List Char
  | 0, _, acc => acc
  | fuel + 1, n, acc =>
    let d := Char.ofNat (48 + n % 10)
    if n < 10 then d :: acc else natToStrGo fuel (n / 10) (d :: acc)

def natToStr (n : Nat) : String := String.mk (natToStrGo (n + 1) n [])

def intToStr (k : Int) : String :=
  if k < 0 then "-" ++ natToStr k.natAbs else natToStr k.natAbs

/-- `str(result)` for a `_safe_eval` result stored by `set`.  Integral values
render like Python ints; non-integral rationals are rendered as exact
fractions (Python would print a float — a rendering difference outside the
rational model that no claim depends on). -/
def valToStr : Value → String
  | .num q => if q.d = 1 then intToStr q.n else intToStr q.n ++ "/" ++ natToStr q.d
  | .dict _ => "<dict>"
  | .fn _ => "<function>"

/-- The numeric view of the environment built by the `set` branch:
`float(v)` for each variable whose value parses as a number. -/
def envNumVars (vars : Env) : NTable :=
  vars.filterMap (fun p => (parseFloatStr p.2).map (fun q => (p.1, Value.num q)))

/-- Prepend a collected line onto the block of a recursive collection
result, passing errors through. -/
def consBlock (line : String) : Except String (List String × List String) →
    Except String (List String × List String)
  | .error e => .error e
  | .ok (b, r) => .ok (line :: b, r)

/-- The inner block-collection loop shared by `repeat` and `for`: scan
forward, skipping blank/comment lines, counting nested `repeat`/`for`
openers against `end` closers, and return the collected (stripped) block
lines together with the remaining lines after the matching `end`.  A
tokenization error aborts (uncaught in the source); running out of lines
returns the remainder as the block (no error, as in the source). -/
def collectBlock : List String → Nat → Except String (List String × List String)
  | [], _ => .ok ([], [])
  | l :: ls, d =>
    let line := strTrim l
    if line = "" ∨ strStartsWith line "#" then collectBlock ls d
    else
      match shlexSplit line with
      | .error e => .error e
      | .ok [] => collectBlock ls d
      | .ok (t :: _) =>
        if strLower t = "repeat" ∨ strLower t = "for" then
          consBlock line (collectBlock ls (d + 1))
        else if strLower t = "end" then
          if d = 1 then .ok ([], ls)
          else consBlock line (collectBlock ls (d - 1))
        else
          consBlock line (collectBlock ls d)

theorem consBlock_ok {line : String} {x : Except String (List String × List String)}
    {b r : List String} (h : consBlock line x = .ok (b, r)) :
    ∃ b2, x = .ok (b2, r) ∧ b = line :: b2 := by
  cases x with
  | error e => simp [consBlock] at h
  | ok p =>
    obtain ⟨b2, r2⟩ := p
    simp [consBlock] at h
    exact ⟨b2, by simp [h.2], h.1.symm⟩

theorem collectBlock_len : ∀ (ls : List String) (d : Nat) (b r : List String),
    collectBlock ls d = .ok (b, r) → b.length + r.length ≤ ls.length := by
  intro ls
  induction ls with
  | nil =>
    intro d b r h
    rw [collectBlock] at h
    simp at h
    simp [h.1, h.2]
  | cons l ls ih =>
    intro d b r h
    rw [collectBlock] at h
    by_cases hbl : (strTrim l = "" ∨ strStartsWith (strTrim l) "#" = true)
    · rw [if_pos hbl] at h
      have hr := ih _ _ _ h
      simp only [List.length_cons]
      omega
    · rw [if_neg hbl] at h
      split at h
      · exact absurd h (by simp)
      · have hr := ih _ _ _ h
        simp only [List.length_cons]
        omega
      · by_cases hrf : (strLower ‹String› = "repeat" ∨ strLower ‹String› = "for")
        · rw [if_pos hrf] at h
          obtain ⟨b2, heq, hb⟩ := consBlock_ok h
          have hr := ih _ _ _ heq
          subst hb
          simp only [List.length_cons]
          omega
        · rw [if_neg hrf] at h
          by_cases hend : strLower ‹String› = "end"
          · rw [if_pos hend] at h
            by_cases hd : d = 1
            · rw [if_pos hd] at h
              simp at h
              simp [h.1, h.2]
            · rw [if_neg hd] at h
              obtain ⟨b2, heq, hb⟩ := consBlock_ok h
              have hr := ih _ _ _ heq
              subst hb
              simp only [List.length_cons]
              omega
          · rw [if_neg hend] at h
            obtain ⟨b2, heq, hb⟩ := consBlock_ok h
            have hr := ih _ _ _ heq
            subst hb
            simp only [List.length_cons]
            omega

/-- Total projections of `collectBlock`, so the expander can match on the
error separately from destructuring the block (keeping the recursion's
termination argument independent of match hypotheses). -/
def cbErr (ls : List String) : Option String :=
  match collectBlock ls 1 with
  | .error e => some e
  | .ok _ => none

def cbBlock (ls : List String) : List String :=
  match collectBlock ls 1 with
  | .error _ => []
  | .ok p => p.1

def cbRest (ls : List String) : List String :=
  match collectBlock ls 1 with
  | .error _ => []
  | .ok p => p.2

theorem cb_len (ls : List String) : (cbBlock ls).length + (cbRest ls).length ≤ ls.length := by
  rw [cbBlock, cbRest]
  cases h : collectBlock ls 1 with
  | error e => simp
  | ok p => simpa using collectBlock_len ls 1 p.1 p.2 (by rw [h])

theorem cb_len_lt (l : String) (ls : List String) :
    2 * ((cbBlock ls).length + (cbRest ls).length) + 1 < 2 * (l :: ls).length := by
  have := cb_len ls
  simp only [List.length_cons]
  omega
/-- Local environment for one value of a multi-variable `for`: a copy of the
outer environment overlaid with each variable bound to its (substituted)
part, in order. -/
def forLocalEnv (keys parts : List String) (vars : Env) : Env :=
  (keys.zip parts).foldl (fun acc p => envInsert p.1 (substitute_vars p.2 vars) acc) vars

/-- The value loop of a multi-variable `for` directive: for each value token,
split it on commas; on an arity mismatch with the variable list report the
error and STOP (the source uses `break`), otherwise emit the local
environment for that value and continue. -/
def forMultiEnvs (keys : List String) (vars : Env) : List String → List Env × List String
  | [] => ([], [])
  | v :: rest =>
    let parts := splitOnChar ',' v
    if parts.length ≠ keys.length then ([], [forMismatchMsg])
    else
      let (es, errs) := forMultiEnvs keys vars rest
      (forLocalEnv keys parts vars :: es, errs)

/-- The parameter overlay of a `call` directive: a copy of the caller's
environment updated with each `k=v` token (tokens without `=` are ignored). -/
def callParams (vars : Env) (toks : List String) : Env :=
  toks.foldl
    (fun acc tok =>
      if strHasChar tok '=' then
        let kv := splitFirst '=' tok
        envInsert kv.1 kv.2 acc
      else acc)
    vars

/-- The value stored by a `set` directive: try `_safe_eval` on the
substituted text against the float-parseable variables; on success store
`str(result)`, on any failure store the raw substituted text. -/
def setValue (rawVal : String) (vars : Env) : String :=
  match safe_eval rawVal (envNumVars vars) with
  | .ok v => valToStr v
  | .error _ => rawVal

mutual

/-- `_expand_script_lines(lines, variables, depth)`: returns the expanded
command lines and the reported error messages, or an `Except.error` for the
uncaught `shlex.split` `ValueError`.  Structure, line for line with the
source: a depth over 10 reports and returns no lines; blank and `#` lines
are skipped; `set` evaluates and binds in the current environment; `call`
expands the named script at `depth + 1` on a parameter-overlaid copy;
`repeat` collects its block and expands it count times, each on a copy of
the current environment (the iterations are identical because the expansion
is pure, so the model expands one copy per replication); `for` iterates its
value tokens with per-value local environments; a bare `end` is a no-op;
anything else is substituted and emitted. -/
def expand_script_lines (scripts : Scripts) (depth : Nat) (lines : List String) (vars : Env) :
    Except String (List String × List String) :=
  if hd : 10 < depth then .ok ([], [maxDepthMsg])
  else
    match lines with
    | [] => .ok ([], [])
    | l :: ls =>
      let raw := strTrim l
      if raw = "" ∨ strStartsWith raw "#" then expand_script_lines scripts depth ls vars
      else
        match shlexSplit raw with
        | .error e => .error e
        | .ok [] => expand_script_lines scripts depth ls vars
        | .ok (t :: tRest) =>
          if strLower t = "set" then
            match tRest with
            | key :: v1 :: vs =>
              let rawVal := substitute_vars (joinSp (v1 :: vs)) vars
              expand_script_lines scripts depth ls (envInsert key (setValue rawVal vars) vars)
            | _ =>
              match expand_script_lines scripts depth ls vars with
              | .error e => .error e
              | .ok (o, er) => .ok (substitute_vars raw vars :: o, er)
          else if strLower t = "call" then
            match tRest with
            | nm :: ps =>
              match lookupScript scripts nm with
              | none =>
                match expand_script_lines scripts depth ls vars with
                | .error e => .error e
                | .ok (o, er) => .ok (o, callNotFoundMsg nm :: er)
              | some body =>
                match expand_script_lines scripts (depth + 1) body (callParams vars ps) with
                | .error e => .error e
                | .ok (o1, er1) =>
                  match expand_script_lines scripts depth ls vars with
                  | .error e => .error e
                  | .ok (o2, er2) => .ok (o1 ++ o2, er1 ++ er2)
            | [] =>
              match expand_script_lines scripts depth ls vars with
              | .error e => .error e
              | .ok (o, er) => .ok (substitute_vars raw vars :: o, er)
          else if strLower t = "repeat" then
            match tRest with
            | cnt :: _ =>
              match parseIntStr cnt with
              | none =>
                match expand_script_lines scripts depth ls vars with
                | .error e => .error e
                | .ok (o, er) => .ok (o, repeatCountMsg cnt :: er)
              | some n =>
                match cbErr ls with
                | some e => .error e
                | none =>
                  expandLoop scripts depth (cbBlock ls) (cbRest ls)
                    (List.replicate n.toNat vars) [] vars
            | [] =>
              match expand_script_lines scripts depth ls vars with
              | .error e => .error e
              | .ok (o, er) => .ok (substitute_vars raw vars :: o, er)
          else if strLower t = "for" then
            match tRest with
            | k :: v1 :: vs =>
              match cbErr ls with
              | some e => .error e
              | none =>
                if strHasChar k ',' then
                  let keys := (splitOnChar ',' k).filter (fun s => s ≠ "")
                  let envsErrs := forMultiEnvs keys vars (v1 :: vs)
                  expandLoop scripts depth (cbBlock ls) (cbRest ls) envsErrs.1 envsErrs.2 vars
                else
                  expandLoop scripts depth (cbBlock ls) (cbRest ls)
                    ((v1 :: vs).map (fun v => envInsert k (substitute_vars v vars) vars)) [] vars
            | _ =>
              match expand_script_lines scripts depth ls vars with
              | .error e => .error e
              | .ok (o, er) => .ok (substitute_vars raw vars :: o, er)
          else if strLower t = "end" then
            expand_script_lines scripts depth ls vars
          else
            match expand_script_lines scripts depth ls vars with
            | .error e => .error e
            | .ok (o, er) => .ok (substitute_vars raw vars :: o, er)
termination_by (11 - depth, 2 * lines.length, 0)
decreasing_by
  all_goals
    first
    | (apply Prod.Lex.left
       omega)
    | (apply Prod.Lex.right
       apply Prod.Lex.left
       first
       | (simp only [List.length_cons]
          omega)
       | exact cb_len_lt _ _)

/-- The continuation of a `repeat`/`for` directive: expand the collected
block once per environment, then expand the remaining lines after the
block's `end`, concatenating outputs and error messages (with the
directive's own reported errors in between, in report order). -/
def expandLoop (scripts : Scripts) (depth : Nat) (block rest2 : List String)
    (envs : List Env) (extraErrs : List String) (vars : Env) :
    Except String (List String × List String) :=
  match expandEach scripts depth block envs with
  | .error e => .error e
  | .ok (o1, er1) =>
    match expand_script_lines scripts depth rest2 vars with
    | .error e => .error e
    | .ok (o2, er2) => .ok (o1 ++ o2, er1 ++ extraErrs ++ er2)
termination_by (11 - depth, 2 * (block.length + rest2.length) + 1, 0)
decreasing_by
  · apply Prod.Lex.right
    apply Prod.Lex.left
    omega
  · apply Prod.Lex.right
    apply Prod.Lex.left
    omega

/-- The per-iteration loop shared by `repeat` and `for`: expand the block
once for each environment in the list, concatenating outputs and reported
errors, and aborting on the first uncaught tokenization error (as the
source's exception would). -/
def expandEach (scripts : Scripts) (depth : Nat) (block : List String) :
    List Env → Except String (List String × List String)
  | [] => .ok ([], [])
  | env :: rest =>
    match expand_script_lines scripts depth block env with
    | .error e => .error e
    | .ok (o1, er1) =>
      match expandEach scripts depth block rest with
      | .error e => .error e
      | .ok (o2, er2) => .ok (o1 ++ o2, er1 ++ er2)
termination_by envs => (11 - depth, 2 * block.length, envs.length)
decreasing_by
  · apply Prod.Lex.right
    apply Prod.Lex.right
    simp only [List.length_cons]
    omega
  · apply Prod.Lex.right
    apply Prod.Lex.right
    simp only [List.length_cons]
    omega

end

/-! ### Step lemmas for the expander

One lemma per line shape, each quantified over scripts, depth, environment
and remaining lines; concrete proofs discharge the tokenization hypotheses
by `rfl`/`decide`. -/

/-- Prepend an output line to an expansion result. -/
def consOut (s : String) : Except String (List String × List String) →
    Except String (List String × List String)
  | .error e => .error e
  | .ok (o, er) => .ok (s :: o, er)

/-- Prepend a reported error to an expansion result. -/
def consErr (m : String) : Except String (List String × List String) →
    Except String (List String × List String)
  | .error e => .error e
  | .ok (o, er) => .ok (o, m :: er)

/-- Concatenate two expansion results, with extra reported errors spliced
between the two error lists. -/
def mergeOutE (mid : List String) :
    Except String (List String × List String) → Except String (List String × List String) →
    Except String (List String × List String)
  | .error e, _ => .error e
  | .ok _, .error e => .error e
  | .ok (o1, er1), .ok (o2, er2) => .ok (o1 ++ o2, er1 ++ mid ++ er2)

theorem consOut_ok (s : String) (o er) : consOut s (.ok (o, er)) = .ok (s :: o, er) := rfl

theorem consErr_ok (m : String) (o er) : consErr m (.ok (o, er)) = .ok (o, m :: er) := rfl

theorem mergeOutE_ok (mid o1 er1 o2 er2) :
    mergeOutE mid (.ok (o1, er1)) (.ok (o2, er2)) = .ok (o1 ++ o2, er1 ++ mid ++ er2) := rfl

theorem expand_maxdepth (scripts : Scripts) {depth : Nat} (h : 10 < depth)
    (lines : List String) (vars : Env) :
    expand_script_lines scripts depth lines vars = .ok ([], [maxDepthMsg]) := by
  rw [expand_script_lines.eq_def, dif_pos h]

theorem expand_nil (scripts : Scripts) {depth : Nat} (h : depth ≤ 10) (vars : Env) :
    expand_script_lines scripts depth [] vars = .ok ([], []) := by
  rw [expand_script_lines, dif_neg (by omega)]

theorem expand_skip {l : String} (h : strTrim l = "" ∨ strStartsWith (strTrim l) "#" = true)
    (scripts : Scripts) {depth : Nat} (hdep : depth ≤ 10) (ls : List String) (vars : Env) :
    expand_script_lines scripts depth (l :: ls) vars = expand_script_lines scripts depth ls vars := by
  rw [expand_script_lines, dif_neg (by omega)]
  simp only [if_pos h]

theorem expand_tok_err {l : String} {e : String}
    (hblank : ¬(strTrim l = "" ∨ strStartsWith (strTrim l) "#" = true))
    (hsp : shlexSplit (strTrim l) = .error e)
    (scripts : Scripts) {depth : Nat} (hdep : depth ≤ 10) (ls : List String) (vars : Env) :
    expand_script_lines scripts depth (l :: ls) vars = .error e := by
  rw [expand_script_lines, dif_neg (by omega)]
  simp only [if_neg hblank, hsp]

theorem expand_plain {l t : String} {tRest : List String}
    (hblank : ¬(strTrim l = "" ∨ strStartsWith (strTrim l) "#" = true))
    (hsp : shlexSplit (strTrim l) = .ok (t :: tRest))
    (hset : strLower t ≠ "set") (hcall : strLower t ≠ "call")
    (hrep : strLower t ≠ "repeat") (hfor : strLower t ≠ "for")
    (hend : strLower t ≠ "end")
    (scripts : Scripts) {depth : Nat} (hdep : depth ≤ 10) (ls : List String) (vars : Env) :
    expand_script_lines scripts depth (l :: ls) vars =
      consOut (substitute_vars (strTrim l) vars) (expand_script_lines scripts depth ls vars) := by
  rw [expand_script_lines, dif_neg (by omega)]
  simp only [if_neg hblank, hsp, if_neg hset, if_neg hcall, if_neg hrep, if_neg hfor,
    if_neg hend]
  cases expand_script_lines scripts depth ls vars with
  | error e => rfl
  | ok p =>
    obtain ⟨o, er⟩ := p
    rfl

theorem expand_set {l t key v1 : String} {vs : List String}
    (hblank : ¬(strTrim l = "" ∨ strStartsWith (strTrim l) "#" = true))
    (hsp : shlexSplit (strTrim l) = .ok (t :: key :: v1 :: vs))
    (hlow : strLower t = "set")
    (scripts : Scripts) {depth : Nat} (hdep : depth ≤ 10) (ls : List String) (vars : Env) :
    expand_script_lines scripts depth (l :: ls) vars =
      expand_script_lines scripts depth ls
        (envInsert key (setValue (substitute_vars (joinSp (v1 :: vs)) vars) vars) vars) := by
  rw [expand_script_lines, dif_neg (by omega)]
  simp only [if_neg hblank, hsp, hlow, if_pos rfl]
  simp

theorem expand_call_found {l t nm : String} {ps body : List String}
    (hblank : ¬(strTrim l = "" ∨ strStartsWith (strTrim l) "#" = true))
    (hsp : shlexSplit (strTrim l) = .ok (t :: nm :: ps))
    (hlow : strLower t = "call")
    {scripts : Scripts} (hfound : lookupScript scripts nm = some body)
    {depth : Nat} (hdep : depth ≤ 10) (ls : List String) (vars : Env) :
    expand_script_lines scripts depth (l :: ls) vars =
      mergeOutE [] (expand_script_lines scripts (depth + 1) body (callParams vars ps))
        (expand_script_lines scripts depth ls vars) := by
  rw [expand_script_lines, dif_neg (by omega)]
  simp only [if_neg hblank, hsp, hlow, if_pos rfl, hfound]
  have : ¬("call" = "set") := by decide
  simp only [if_neg this]
  cases expand_script_lines scripts (depth + 1) body (callParams vars ps) with
  | error e => rfl
  | ok p1 =>
    obtain ⟨o1, er1⟩ := p1
    cases expand_script_lines scripts depth ls vars with
    | error e => rfl
    | ok p2 =>
      obtain ⟨o2, er2⟩ := p2
      simp [mergeOutE]

theorem expand_call_missing {l t nm : String} {ps : List String}
    (hblank : ¬(strTrim l = "" ∨ strStartsWith (strTrim l) "#" = true))
    (hsp : shlexSplit (strTrim l) = .ok (t :: nm :: ps))
    (hlow : strLower t = "call")
    {scripts : Scripts} (hmiss : lookupScript scripts nm = none)
    {depth : Nat} (hdep : depth ≤ 10) (ls : List String) (vars : Env) :
    expand_script_lines scripts depth (l :: ls) vars =
      consErr (callNotFoundMsg nm) (expand_script_lines scripts depth ls vars) := by
  rw [expand_script_lines, dif_neg (by omega)]
  simp only [if_neg hblank, hsp, hlow, if_pos rfl, hmiss]
  have : ¬("call" = "set") := by decide
  simp only [if_neg this]
  cases expand_script_lines scripts depth ls vars with
  | error e => rfl
  | ok p =>
    obtain ⟨o, er⟩ := p
    rfl

theorem expand_repeat {l t cnt : String} {tTail : List String} {n : Int}
    (hblank : ¬(strTrim l = "" ∨ strStartsWith (strTrim l) "#" = true))
    (hsp : shlexSplit (strTrim l) = .ok (t :: cnt :: tTail))
    (hlow : strLower t = "repeat")
    (hcnt : parseIntStr cnt = some n)
    {ls : List String} (hcb : cbErr ls = none)
    (scripts : Scripts) {depth : Nat} (hdep : depth ≤ 10) (vars : Env) :
    expand_script_lines scripts depth (l :: ls) vars =
      expandLoop scripts depth (cbBlock ls) (cbRest ls)
        (List.replicate n.toNat vars) [] vars := by
  rw [expand_script_lines, dif_neg (by omega)]
  simp only [if_neg hblank, hsp, hlow, if_pos rfl, hcnt, hcb]
  have h1 : ¬("repeat" = "set") := by decide
  have h2 : ¬("repeat" = "call") := by decide
  simp only [if_neg h1, if_neg h2]
  simp

theorem expand_for_multi {l t k v1 : String} {vs : List String}
    (hblank : ¬(strTrim l = "" ∨ strStartsWith (strTrim l) "#" = true))
    (hsp : shlexSplit (strTrim l) = .ok (t :: k :: v1 :: vs))
    (hlow : strLower t = "for")
    (hcomma : strHasChar k ',' = true)
    {ls : List String} (hcb : cbErr ls = none)
    (scripts : Scripts) {depth : Nat} (hdep : depth ≤ 10) (vars : Env) :
    expand_script_lines scripts depth (l :: ls) vars =
      expandLoop scripts depth (cbBlock ls) (cbRest ls)
        (forMultiEnvs ((splitOnChar ',' k).filter (fun s => s ≠ "")) vars (v1 :: vs)).1
        (forMultiEnvs ((splitOnChar ',' k).filter (fun s => s ≠ "")) vars (v1 :: vs)).2
        vars := by
  rw [expand_script_lines, dif_neg (by omega)]
  simp only [if_neg hblank, hsp, hlow, if_pos rfl, hcb, hcomma]
  have h1 : ¬("for" = "set") := by decide
  have h2 : ¬("for" = "call") := by decide
  have h3 : ¬("for" = "repeat") := by decide
  simp only [if_neg h1, if_neg h2, if_neg h3, if_pos rfl]
  simp

theorem expand_for_single {l t k v1 : String} {vs : List String}
    (hblank : ¬(strTrim l = "" ∨ strStartsWith (strTrim l) "#" = true))
    (hsp : shlexSplit (strTrim l) = .ok (t :: k :: v1 :: vs))
    (hlow : strLower t = "for")
    (hcomma : strHasChar k ',' = false)
    {ls : List String} (hcb : cbErr ls = none)
    (scripts : Scripts) {depth : Nat} (hdep : depth ≤ 10) (vars : Env) :
    expand_script_lines scripts depth (l :: ls) vars =
      expandLoop scripts depth (cbBlock ls) (cbRest ls)
        ((v1 :: vs).map (fun v => envInsert k (substitute_vars v vars) vars)) [] vars := by
  rw [expand_script_lines, dif_neg (by omega)]
  simp only [if_neg hblank, hsp, hlow, if_pos rfl, hcb, hcomma]
  have h1 : ¬("for" = "set") := by decide
  have h2 : ¬("for" = "call") := by decide
  have h3 : ¬("for" = "repeat") := by decide
  simp only [if_neg h1, if_neg h2, if_neg h3, Bool.false_eq_true, if_false]
  simp

theorem expand_end {l t : String} {tRest : List String}
    (hblank : ¬(strTrim l = "" ∨ strStartsWith (strTrim l) "#" = true))
    (hsp : shlexSplit (strTrim l) = .ok (t :: tRest))
    (hlow : strLower t = "end")
    (scripts : Scripts) {depth : Nat} (hdep : depth ≤ 10) (ls : List String) (vars : Env) :
    expand_script_lines scripts depth (l :: ls) vars = expand_script_lines scripts depth ls vars := by
  rw [expand_script_lines, dif_neg (by omega)]
  simp only [if_neg hblank, hsp, hlow, if_pos rfl]
  have h1 : ¬("end" = "set") := by decide
  have h2 : ¬("end" = "call") := by decide
  have h3 : ¬("end" = "repeat") := by decide
  have h4 : ¬("end" = "for") := by decide
  simp only [if_neg h1, if_neg h2, if_neg h3, if_neg h4]
  simp

theorem expandEach_nil (scripts : Scripts) (depth : Nat) (block : List String) :
    expandEach scripts depth block [] = .ok ([], []) := by
  rw [expandEach]

theorem expandEach_cons (scripts : Scripts) (depth : Nat) (block : List String)
    (env : Env) (rest : List Env) :
    expandEach scripts depth block (env :: rest) =
      mergeOutE [] (expand_script_lines scripts depth block env)
        (expandEach scripts depth block rest) := by
  rw [expandEach]
  cases expand_script_lines scripts depth block env with
  | error e => rfl
  | ok p1 =>
    obtain ⟨o1, er1⟩ := p1
    cases expandEach scripts depth block rest with
    | error e => rfl
    | ok p2 =>
      obtain ⟨o2, er2⟩ := p2
      simp [mergeOutE]

theorem expandLoop_eq (scripts : Scripts) (depth : Nat) (block rest2 : List String)
    (envs : List Env) (extraErrs : List String) (vars : Env) :
    expandLoop scripts depth block rest2 envs extraErrs vars =
      mergeOutE extraErrs (expandEach scripts depth block envs)
        (expand_script_lines scripts depth rest2 vars) := by
  rw [expandLoop]
  cases expandEach scripts depth block envs with
  | error e => rfl
  | ok p1 =>
    obtain ⟨o1, er1⟩ := p1
    cases expand_script_lines scripts depth rest2 vars with
    | error e => rfl
    | ok p2 =>
      obtain ⟨o2, er2⟩ := p2
      rfl

/-! ### Device role resolution (`_resolve_device_type`)

A registry is modelled by its ordered key list (Python dict insertion
order); resolution only inspects names. -/

/-- The pattern `^<type>\d*$`: the name is the type followed by zero or more
digits. -/
def nameMatchesType (t name : String) : Bool :=
  strStartsWith name t && (name.data.drop t.data.length).all Char.isDigit

/-- The candidate list of `_resolve_device_type`: names matching the
pattern, plus the legacy `dds` entry appended for a bare `awg` request
whenever the registry holds `dds` (the `'dds' not in candidates` test in the
source is always true here, since `dds` never matches `^awg\d*$`). -/
def deviceCandidates (devices : List String) (t : String) : List String :=
  let base := devices.filter (nameMatchesType t)
  if t = "awg" ∧ devices.contains "dds" ∧ ¬(base.contains "dds") then
    base ++ ["dds"]
  else base

/-- `_resolve_device_type`: an override naming a registered device wins;
otherwise exactly one candidate is auto-selected, no candidates or several
candidates resolve to `none` (reported as not-found / ambiguous). -/
def resolve_device_type (override : Option String) (devices : List String) (t : String) :
    Option String :=
  match override with
  | some o =>
    if o ≠ "" ∧ devices.contains o then some o else resolveCore devices t
  | none => resolveCore devices t
where
  resolveCore (devices : List String) (t : String) : Option String :=
    match deviceCandidates devices t with
    | [] => none
    | [c] => some c
    | _ => none

/-! ### Registry and selection state (`scan`, `do_use`, `do_close`) -/

structure ReplState where
  devices : List String
  selected : Option String
  deriving DecidableEq, Repr

/-- `self.selected not in self.devices` (Python: `None not in dict` is true). -/
def selectedNotIn (sel : Option String) (devices : List String) : Bool :=
  match sel with
  | none => true
  | some n => ¬ devices.contains n

/-- `scan`: replace the registry with the discovery result; if it is
nonempty and the current selection is not one of its keys, select the first
key; otherwise leave the selection untouched. -/
def scan_op (newDevices : List String) (s : ReplState) : ReplState :=
  if newDevices ≠ [] ∧ selectedNotIn s.selected newDevices then
    { devices := newDevices, selected := newDevices.head? }
  else
    { devices := newDevices, selected := s.selected }

/-- `do_use` (core path): select the named device if registered, otherwise
report and leave the state unchanged. -/
def do_use (name : String) (s : ReplState) : ReplState :=
  if s.devices.contains name then { s with selected := some name } else s

/-- `do_close`: disconnect every device (errors reported per device), then
empty the registry and clear the selection. -/
def do_close (_s : ReplState) : ReplState :=
  { devices := [], selected := none }

/-- The §3 invariant: the selected pointer is `None` or a registry key. -/
def selInvariant (s : ReplState) : Bool :=
  match s.selected with
  | none => true
  | some n => s.devices.contains n

/-! ### Bulk state controller (`_safe_all`, `_reset_all`)

A device handle is modelled by the behavior of the driver methods the
controller probes: `none` models a method the driver does not implement
(`hasattr` false — or, for `reset` in `_reset_all`, an `AttributeError` when
called), `some (.ok ())` a successful call, `some (.error e)` a call that
raises.  Channel-level calls of the scope fallback are swallowed
individually by the source, so only their presence matters here. -/

structure Device where
  disable_all_channels : Option (Except String Unit)
  enable_output : Option (Except String Unit)
  dev_stop : Option (Except String Unit)
  disable_channel : Option Unit
  dev_reset : Option (Except String Unit)

/-- One report line per device, as `ColorPrinter.success`/`error` produce. -/
inductive Report where
  | success : String → String → Report
  | failure : String → String → Report
  deriving DecidableEq, Repr

/-- The per-device body of `_safe_all`, with the source's `hasattr`
cascades: PSUs prefer `disable_all_channels` then `enable_output(False)`;
AWGs (and the legacy `dds`) the same; scopes `stop()` then
`disable_all_channels` or per-channel disables (whose individual failures
are swallowed); DMMs `reset()`; a device matching no category does nothing
and still reports success. -/
def safeDeviceResult (name : String) (d : Device) : Except String Unit :=
  if strStartsWith name "psu" then
    match d.disable_all_channels with
    | some r => r
    | none =>
      match d.enable_output with
      | some r => r
      | none => .ok ()
  else if strStartsWith name "awg" ∨ name = "dds" then
    match d.disable_all_channels with
    | some r => r
    | none =>
      match d.enable_output with
      | some r => r
      | none => .ok ()
  else if strStartsWith name "scope" then
    match d.dev_stop with
    | some (.error e) => .error e
    | _ =>
      match d.disable_all_channels with
      | some r => r
      | none => .ok ()
  else if strStartsWith name "dmm" then
    match d.dev_reset with
    | some r => r
    | none => .ok ()
  else .ok ()

/-- `_safe_all`: apply the safe-state body to every registered device in
order, reporting success or failure per device and always continuing to the
next one. -/
def safe_all : List (String × Device) → List Report
  | [] => []
  | (name, d) :: rest =>
    (match safeDeviceResult name d with
     | .ok _ => Report.success name "safe state applied"
     | .error e => Report.failure name e) :: safe_all rest

/-- The per-device body of `_reset_all`: `dev.reset()` with no `hasattr`
guard, so a missing method is an `AttributeError`, caught like any other
per-device exception. -/
def resetDeviceResult (d : Device) : Except String Unit :=
  match d.dev_reset with
  | some r => r
  | none => .error "AttributeError: reset"

/-- `_reset_all`: reset every registered device in order, reporting success
or failure per device and always continuing to the next one. -/
def reset_all : List (String × Device) → List Report
  | [] => []
  | (name, d) :: rest =>
    (match resetDeviceResult d with
     | .ok _ => Report.success name "reset"
     | .error e => Report.failure name e) :: reset_all rest

/-! ### One-shot shutdown guard (`_cleanup_on_exit`, `_cleanup_on_interrupt`) -/

structure ShellState where
  cleanup_done : Bool
  registry : List (String × Device)

/-- `_cleanup_on_exit`: if cleanup has not run yet and devices are
registered, set the guard flag and safe every device; otherwise do nothing.
Returns the new state together with the device reports produced (empty when
no device operation was performed). -/
def cleanup_on_exit (s : ShellState) : ShellState × List Report :=
  if ¬s.cleanup_done ∧ ¬s.registry.isEmpty then
    ({ s with cleanup_done := true }, safe_all s.registry)
  else
    (s, [])

/-- `_cleanup_on_interrupt`: same guard and same device-safing side effects
as `_cleanup_on_exit` (the subsequent `os._exit(0)` ends the process and is
outside the state model). -/
def cleanup_on_interrupt (s : ShellState) : ShellState × List Report :=
  if ¬s.cleanup_done ∧ ¬s.registry.isEmpty then
    ({ s with cleanup_done := true }, safe_all s.registry)
  else
    (s, [])

/-! ### Syntactic safety predicates for `_safe_eval`

`hasDisallowedOrig` transcribes the claim's own list of rejected constructs
(string literals are exempt in subscript-key position, bare names are not);
`hasDisallowedAm` is the amended predicate that also exempts names in
subscript-key position, where the walker uses the name's text as a literal
key without looking it up. -/

def opDisallowed : BOp → Bool
  | .floordiv => true
  | .bitand => true
  | _ => false

def unopDisallowed : UOp → Bool
  | .boolnot => true
  | .invert => true
  | _ => false

/-- A call whose callee is not (syntactically) one of the allowlisted
builtin names. -/
def calleeDisallowed : Expr → Bool
  | .name n => (allowedFnName n).isNone
  | _ => true

mutual

def hasDisallowedOrig (names : NTable) : Expr → Bool
  | .lit (.cnum _) => false
  | .lit (.cstr _) => true
  | .name n => (lookupN names n).isNone && (allowedFnName n).isNone
  | .binop op l r => opDisallowed op || hasDisallowedOrig names l || hasDisallowedOrig names r
  | .unop op a => unopDisallowed op || hasDisallowedOrig names a
  | .subscript b s =>
    hasDisallowedOrig names b ||
      (match s with
       | .lit _ => false
       | _ => hasDisallowedOrig names s)
  | .call f args =>
    calleeDisallowed f || hasDisallowedOrig names f || hasDisallowedOrigArgs names args
  | .attrAccess _ _ => true
  | .boolop _ _ => true
  | .compare _ _ => true
  | .comprehension => true

def hasDisallowedOrigArgs (names : NTable) : ArgL → Bool
  | .anil => false
  | .acons a rest => hasDisallowedOrig names a || hasDisallowedOrigArgs names rest

end

mutual

def hasDisallowedAm (names : NTable) : Expr → Bool
  | .lit (.cnum _) => false
  | .lit (.cstr _) => true
  | .name n => (lookupN names n).isNone && (allowedFnName n).isNone
  | .binop op l r => opDisallowed op || hasDisallowedAm names l || hasDisallowedAm names r
  | .unop op a => unopDisallowed op || hasDisallowedAm names a
  | .subscript b s =>
    hasDisallowedAm names b ||
      (match s with
       | .lit _ => false
       | .name _ => false
       | _ => hasDisallowedAm names s)
  | .call f args =>
    calleeDisallowed f || hasDisallowedAm names f || hasDisallowedAmArgs names args
  | .attrAccess _ _ => true
  | .boolop _ _ => true
  | .compare _ _ => true
  | .comprehension => true

def hasDisallowedAmArgs (names : NTable) : ArgL → Bool
  | .anil => false
  | .acons a rest => hasDisallowedAm names a || hasDisallowedAmArgs names rest

end

/-- Slice position under the amended wording, as a standalone view of the
inline match: literals AND bare names are exempt (the walker uses a name
slice as a literal string key). -/
def sliceDisAm (names : NTable) : Expr → Bool
  | .lit _ => false
  | .name _ => false
  | s => hasDisallowedAm names s

theorem hasDisallowedAm_subscript (names : NTable) (b s : Expr) :
    hasDisallowedAm names (.subscript b s) =
      (hasDisallowedAm names b || sliceDisAm names s) := by
  cases s <;> rfl

/-! Values free of function objects (the realistic name tables: the two call
sites supply numbers and dictionaries of numbers only). -/

mutual

def fnFree : Value → Bool
  | .num _ => true
  | .fn _ => false
  | .dict es => entriesFnFree es

def entriesFnFree : EntryL → Bool
  | .enil => true
  | .econs _ v rest => fnFree v && entriesFnFree rest

end

def tableOk (names : NTable) : Bool :=
  names.all (fun p => fnFree p.2)

def evalRejects (names : NTable) (e : Expr) : Bool :=
  match evalE names e with
  | .error _ => true
  | .ok _ => false

def argsReject (names : NTable) (args : ArgL) : Bool :=
  match evalArgs names args with
  | .error _ => true
  | .ok _ => false

theorem lookupN_fnFree : ∀ (names : NTable), tableOk names = true →
    ∀ n v, lookupN names n = some v → fnFree v = true := by
  intro names
  induction names with
  | nil => intro _ n v h; simp [lookupN] at h
  | cons p ps ih =>
    intro hok n v h
    simp [tableOk] at hok
    rw [lookupN] at h
    by_cases hk : p.1 = n
    · rw [if_pos hk] at h
      cases h
      exact hok.1
    · rw [if_neg hk] at h
      exact ih (by simp [tableOk]; exact hok.2) n v h

theorem entryLookup_fnFree : (es : EntryL) → entriesFnFree es = true →
    ∀ k v, entryLookup es k = .ok v → fnFree v = true
  | .enil, _, k, v, h => by simp [entryLookup] at h
  | .econs k0 v0 rest, hok, k, v, h => by
    rw [entriesFnFree] at hok
    simp at hok
    rw [entryLookup] at h
    by_cases hk : k0 = k
    · rw [if_pos hk] at h
      cases h
      exact hok.1
    · rw [if_neg hk] at h
      exact entryLookup_fnFree rest hok.2 k v h

theorem applyBin_dis {op : BOp} (h : opDisallowed op = true) (l r : Value) :
    ∃ m, applyBin op l r = .error m := by
  cases op <;> simp [opDisallowed] at h <;>
    cases l <;> cases r <;> simp [applyBin]

theorem applyUn_dis {op : UOp} (h : unopDisallowed op = true) (v : Value) :
    ∃ m, applyUn op v = .error m := by
  cases op <;> simp [unopDisallowed] at h <;> simp [applyUn]

theorem applyBin_ok_num {op : BOp} {l r v : Value} (h : applyBin op l r = .ok v) :
    ∃ q, v = .num q := by
  unfold applyBin pyPow pyMod at h
  cases l <;> cases r <;> cases op <;> repeat' split at h
  all_goals simp at h
  all_goals first | exact ⟨_, h.symm⟩ | exact ⟨_, h⟩

theorem applyUn_ok_num {op : UOp} {w v : Value} (h : applyUn op w = .ok v) :
    ∃ q, v = .num q := by
  cases op <;> cases w <;> simp [applyUn] at h <;> exact ⟨_, h.symm⟩

theorem applyFn_ok_num {g : FName} {args : List Value} {v : Value}
    (h : applyFn g args = .ok v) : ∃ q, v = .num q := by
  unfold applyFn at h
  cases g <;> repeat' split at h
  all_goals simp at h
  all_goals first | exact ⟨_, h.symm⟩ | exact ⟨_, h⟩

/-- Under an fn-free name table, a successful evaluation yields either an
fn-free value or one of the builtin functions, the latter only directly from
a name node (functions cannot hide inside dictionaries or arithmetic). -/
theorem evalE_shape (names : NTable) (hok : tableOk names = true) :
    (e : Expr) → (v : Value) → evalE names e = .ok v →
      fnFree v = true ∨ ∃ n g, e = .name n ∧ v = .fn g
  | .lit (.cnum q), v, h => by
    rw [evalE] at h
    simp at h
    left
    simp [← h, fnFree]
  | .lit (.cstr s), v, h => by
    rw [evalE] at h
    simp at h
  | .name n, v, h => by
    rw [evalE] at h
    split at h
    · rename_i w heq
      simp at h
      subst h
      exact Or.inl (lookupN_fnFree names hok n _ heq)
    · split at h
      · simp at h
        exact Or.inr ⟨n, _, rfl, h.symm⟩
      · simp at h
  | .binop op l r, v, h => by
    rw [evalE] at h
    split at h
    · simp at h
    · split at h
      · simp at h
      · obtain ⟨q, hq⟩ := applyBin_ok_num h
        left
        simp [hq, fnFree]
  | .unop op a, v, h => by
    rw [evalE] at h
    split at h
    · simp at h
    · obtain ⟨q, hq⟩ := applyUn_ok_num h
      left
      simp [hq, fnFree]
  | .subscript b s, v, h => by
    rw [evalE] at h
    split at h
    · simp at h
    · rename_i bv hb
      split at h
      · rename_i entries
        have hshape := evalE_shape names hok b (.dict entries) hb
        have hents : entriesFnFree entries = true := by
          rcases hshape with hf | ⟨n, g, _, hbad⟩
          · rw [fnFree] at hf
            exact hf
          · exact absurd hbad (by simp)
        split at h
        · exact Or.inl (entryLookup_fnFree entries hents _ v h)
        · exact Or.inl (entryLookup_fnFree entries hents _ v h)
        · split at h
          · simp at h
          · split at h
            · exact Or.inl (entryLookup_fnFree entries hents _ v h)
            · simp at h
      · simp at h
  | .call f args, v, h => by
    rw [evalE] at h
    split at h
    · simp at h
    · split at h
      · simp at h
      · split at h
        · obtain ⟨q, hq⟩ := applyFn_ok_num h
          left
          simp [hq, fnFree]
        · simp at h
  | .attrAccess b fld, v, h => by
    rw [evalE] at h
    simp at h
  | .boolop a b, v, h => by
    rw [evalE] at h
    simp at h
  | .compare a b, v, h => by
    rw [evalE] at h
    simp at h
  | .comprehension, v, h => by
    rw [evalE] at h
    simp at h

mutual

/-- Key safety property of `_safe_eval`: under an fn-free name table, every
expression containing a disallowed construct (per the amended list, with
both subscript-key exemptions) evaluates to an error. -/
theorem hasDisallowedAm_rejects (names : NTable) (hok : tableOk names = true) :
    (e : Expr) → hasDisallowedAm names e = true → evalRejects names e = true
  | .lit (.cnum _), h => by
    rw [hasDisallowedAm] at h
    exact absurd h (by simp)
  | .lit (.cstr _), _ => by
    unfold evalRejects
    rw [evalE]
  | .name n, h => by
    rw [hasDisallowedAm, Bool.and_eq_true, Option.isNone_iff_eq_none,
      Option.isNone_iff_eq_none] at h
    unfold evalRejects
    rw [evalE, h.1, h.2]
  | .binop op l r, h => by
    rw [hasDisallowedAm, Bool.or_eq_true, Bool.or_eq_true] at h
    unfold evalRejects
    rw [evalE]
    cases hl : evalE names l with
    | error e => simp
    | ok lv =>
      cases hr : evalE names r with
      | error e => simp
      | ok rv =>
        rcases h with (hop | hdl) | hdr
        · obtain ⟨m, hm⟩ := applyBin_dis hop lv rv
          simp [hm]
        · have hrej := hasDisallowedAm_rejects names hok l hdl
          unfold evalRejects at hrej
          rw [hl] at hrej
          simp at hrej
        · have hrej := hasDisallowedAm_rejects names hok r hdr
          unfold evalRejects at hrej
          rw [hr] at hrej
          simp at hrej
  | .unop op a, h => by
    rw [hasDisallowedAm, Bool.or_eq_true] at h
    unfold evalRejects
    rw [evalE]
    cases ha : evalE names a with
    | error e => simp
    | ok v =>
      rcases h with hop | hda
      · obtain ⟨m, hm⟩ := applyUn_dis hop v
        simp [hm]
      · have hrej := hasDisallowedAm_rejects names hok a hda
        unfold evalRejects at hrej
        rw [ha] at hrej
        simp at hrej
  | .subscript b s, h => by
    rw [hasDisallowedAm_subscript, Bool.or_eq_true] at h
    cases hbe : evalE names b with
    | error e =>
      have heq : evalE names (.subscript b s) = .error e := by
        rw [evalE_subscript_eq, hbe]
      unfold evalRejects
      rw [heq]
    | ok bv =>
      rcases h with hb | hs
      · have hrej := hasDisallowedAm_rejects names hok b hb
        unfold evalRejects at hrej
        rw [hbe] at hrej
        simp at hrej
      · cases bv with
        | num q =>
          have heq : evalE names (.subscript b s) = .error "Subscript base must be a dict." := by
            rw [evalE_subscript_eq, hbe]
          unfold evalRejects
          rw [heq]
        | fn g =>
          have heq : evalE names (.subscript b s) = .error "Subscript base must be a dict." := by
            rw [evalE_subscript_eq, hbe]
          unfold evalRejects
          rw [heq]
        | dict entries =>
          have heq : evalE names (.subscript b s) = evalSliceKey names entries s := by
            rw [evalE_subscript_eq, hbe]
          unfold evalRejects
          rw [heq]
          cases s
          case lit c =>
            rw [sliceDisAm] at hs
            exact absurd hs (by simp)
          case name n =>
            rw [sliceDisAm] at hs
            exact absurd hs (by simp)
          all_goals simp only [sliceDisAm.eq_def] at hs
          all_goals simp only [evalSliceKey.eq_def]
          all_goals
            (split
             · simp
             · rename_i kv hse
               have hrej := hasDisallowedAm_rejects names hok _ hs
               unfold evalRejects at hrej
               split at hrej
               · rename_i e2 heq2
                 rw [heq2] at hse
                 simp at hse
               · simp at hrej)
  | .call f args, h => by
    rw [hasDisallowedAm, Bool.or_eq_true, Bool.or_eq_true] at h
    unfold evalRejects
    rw [evalE]
    cases hf : evalE names f with
    | error e => simp
    | ok fv =>
      cases hargs : evalArgs names args with
      | error e => simp
      | ok avs =>
        rcases h with (hcal | hdf) | hda
        · cases fv with
          | num q => simp
          | dict es => simp
          | fn g =>
            rcases evalE_shape names hok f (.fn g) hf with hfree | ⟨n, g2, hfn, _⟩
            · rw [fnFree] at hfree
              exact absurd hfree (by simp)
            · subst hfn
              rw [calleeDisallowed] at hcal
              rw [evalE] at hf
              split at hf
              · rename_i w heq
                have hw := lookupN_fnFree names hok n w heq
                simp at hf
                rw [hf] at hw
                rw [fnFree] at hw
                exact absurd hw (by simp)
              · split at hf
                · rename_i g3 heq
                  simp [heq] at hcal
                · simp at hf
        · have hrej := hasDisallowedAm_rejects names hok f hdf
          unfold evalRejects at hrej
          rw [hf] at hrej
          simp at hrej
        · have hrej := hasDisallowedAmArgs_rejects names hok args hda
          unfold argsReject at hrej
          rw [hargs] at hrej
          simp at hrej
  | .attrAccess b fld, _ => by
    unfold evalRejects
    rw [evalE]
  | .boolop a b, _ => by
    unfold evalRejects
    rw [evalE]
  | .compare a b, _ => by
    unfold evalRejects
    rw [evalE]
  | .comprehension, _ => by
    unfold evalRejects
    rw [evalE]

theorem hasDisallowedAmArgs_rejects (names : NTable) (hok : tableOk names = true) :
    (args : ArgL) → hasDisallowedAmArgs names args = true → argsReject names args = true
  | .anil, h => by
    rw [hasDisallowedAmArgs] at h
    exact absurd h (by simp)
  | .acons a rest, h => by
    rw [hasDisallowedAmArgs, Bool.or_eq_true] at h
    unfold argsReject
    rw [evalArgs]
    cases ha : evalE names a with
    | error e => simp
    | ok v =>
      cases hrest : evalArgs names rest with
      | error e => simp
      | ok vs =>
        rcases h with hda | hdr
        · have hrej := hasDisallowedAm_rejects names hok a hda
          unfold evalRejects at hrej
          rw [ha] at hrej
          simp at hrej
        · have hrej := hasDisallowedAmArgs_rejects names hok rest hdr
          unfold argsReject at hrej
          rw [hrest] at hrej
          simp at hrej

end

/-! ### Claim theorems -/

theorem substitute_vars_nil (text : String) : substitute_vars text [] = text := rfl

theorem callParams_nil (vars : Env) : callParams vars [] = vars := rfl

def c1Table : NTable :=
  [("m", .dict (.econs (.kstr "foo") (.num (qOfInt 5)) .enil))]

/-- Claim C1 counterexample: the expression `m[foo]` contains the bare name
`foo`, absent from the supplied name table, yet `_safe_eval` does not raise:
the walker uses a name in subscript-key position as a literal string key, so
the expression evaluates to 5.  This refutes the claim that every expression
containing a bare name absent from the table raises an error. -/
theorem c1_counterexample :
    hasDisallowedOrig c1Table (.subscript (.name "m") (.name "foo")) = true ∧
    evalRejects c1Table (.subscript (.name "m") (.name "foo")) = false ∧
    evalE c1Table (.subscript (.name "m") (.name "foo")) = .ok (.num (qOfInt 5)) :=
  ⟨rfl, rfl, rfl⟩

/-- Claim C1 (amended): over any name table whose values are numbers and
(nested) dictionaries of numbers, `_safe_eval` raises an error on every
expression containing a disallowed construct — attribute access, a call to a
non-allowlisted function, a comprehension, a string literal outside a
subscript key, a boolean or comparison operator, or a bare name absent from
the table OUTSIDE a subscript key (a name in subscript-key position is
treated as a literal string key, exactly like a string literal) — and on the
allowed fragment it is a correct arithmetic evaluator: `2 + 3 * 4` evaluates
to 14 and `m["x"]` with `m = {"x": 5}` evaluates to 5. -/
theorem c1_safe_eval_amended :
    (∀ (names : NTable) (e : Expr), tableOk names = true →
        hasDisallowedAm names e = true → evalRejects names e = true) ∧
    safe_eval "2 + 3 * 4" [] = .ok (.num (qOfInt 14)) ∧
    safe_eval "m[\"x\"]" [("m", .dict (.econs (.kstr "x") (.num (qOfInt 5)) .enil))] =
      .ok (.num (qOfInt 5)) ∧
    safe_eval "__import__(\"os\")" [] = .error "Unknown name." :=
  ⟨fun names e hok hd => hasDisallowedAm_rejects names hok e hd, rfl, rfl, rfl⟩

/-- Claim C1 witness: the amended safety statement applied to a concrete
attribute-access expression over the empty table. -/
theorem c1_safe_eval_witness :
    tableOk [] = true ∧
    hasDisallowedAm [] (.attrAccess (.name "x") "y") = true ∧
    evalRejects [] (.attrAccess (.name "x") "y") = true :=
  ⟨rfl, rfl, c1_safe_eval_amended.1 [] (.attrAccess (.name "x") "y") rfl rfl⟩

/-- Claim C4 counterexample: with a registry holding exactly `awg` and
`dds`, a bare `awg` request is reported ambiguous and resolves to nothing —
not auto-selected to `awg` as the claim states — because the source appends
`dds` to the candidate list whenever the registry holds `dds`, regardless of
whether an `awg*`-named entry exists. -/
theorem c4_counterexample :
    resolve_device_type none ["awg", "dds"] "awg" = none ∧
    deviceCandidates ["awg", "dds"] "awg" = ["awg", "dds"] ∧
    (none : Option String) ≠ some "awg" :=
  ⟨rfl, rfl, by decide⟩

/-- Claim C4 (amended): `_resolve_device_type` adds the legacy entry `dds`
as a candidate for a bare `awg` request whenever the registry holds `dds`,
even when `awg*`-named entries exist; consequently a registry of exactly
`awg` and `dds` yields two candidates and the bare request is reported
ambiguous (resolving to nothing), while a registry whose only matching entry
is `dds` resolves a bare `awg` request to `dds`, and a single `awg*`-named
candidate without `dds` is auto-selected. -/
theorem c4_dds_amended :
    (∀ devices : List String, devices.contains "dds" = true →
        (deviceCandidates devices "awg").contains "dds" = true) ∧
    resolve_device_type none ["awg", "dds"] "awg" = none ∧
    resolve_device_type none ["dds", "psu"] "awg" = some "dds" ∧
    resolve_device_type none ["awg1", "psu"] "awg" = some "awg1" := by
  refine ⟨?_, rfl, rfl, rfl⟩
  intro devices h
  simp only [deviceCandidates]
  by_cases hb : (devices.filter (nameMatchesType "awg")).contains "dds" = true
  · rw [if_neg (fun hcond => hcond.2.2 hb)]
    exact hb
  · rw [if_pos ⟨trivial, h, hb⟩]
    simp

/-- Claim C4 witness: the amended dds-candidate statement applied to the
two-entry registry. -/
theorem c4_dds_witness :
    (["awg", "dds"] : List String).contains "dds" = true ∧
    (deviceCandidates ["awg", "dds"] "awg").contains "dds" = true :=
  ⟨rfl, c4_dds_amended.1 ["awg", "dds"] rfl⟩

/-- Claim C5 counterexample: a rescan that returns an empty registry while
`psu` was selected leaves the stale selection in place, violating the
selected-pointer invariant the claim asserts still holds in that case. -/
theorem c5_counterexample :
    selInvariant (scan_op [] ⟨["psu"], some "psu"⟩) = false ∧
    (scan_op [] ⟨["psu"], some "psu"⟩).selected = some "psu" ∧
    (scan_op [] ⟨["psu"], some "psu"⟩).devices = [] :=
  ⟨rfl, rfl, rfl⟩

/-- Claim C5 (amended): the selected-device pointer is `None` or a registry
key after `use` and `close` unconditionally, and after any `scan` whose
result is nonempty (regardless of the prior state); a rescan returning an
empty registry, however, leaves a previously selected name dangling, so the
invariant does not survive that one case. -/
theorem c5_invariant_amended :
    (∀ (s : ReplState) (newDevices : List String), newDevices ≠ [] →
        selInvariant (scan_op newDevices s) = true) ∧
    (∀ (s : ReplState) (name : String), selInvariant s = true →
        selInvariant (do_use name s) = true) ∧
    (∀ s : ReplState, selInvariant (do_close s) = true) := by
  refine ⟨?_, ?_, ?_⟩
  · intro s newDevices hne
    rw [scan_op]
    by_cases hcond : (newDevices ≠ [] ∧ selectedNotIn s.selected newDevices = true)
    · rw [if_pos hcond]
      cases newDevices with
      | nil => exact absurd rfl hne
      | cons d ds => simp [selInvariant]
    · rw [if_neg hcond]
      cases hsel : s.selected with
      | none => simp [selInvariant]
      | some n =>
        simp only [selInvariant]
        rcases not_and_or.mp hcond with hb | hni
        · exact absurd hne (by simpa using hb)
        · rw [hsel] at hni
          simp [selectedNotIn] at hni
          simp [hni]
  · intro s name hs
    by_cases hc : name ∈ s.devices
    · simp [do_use, hc, selInvariant]
    · simp [do_use, hc]
      exact hs
  · intro s
    rfl

/-- Claim C5 witness: the amended scan statement applied to a concrete
nonempty rescan from an empty state. -/
theorem c5_invariant_witness :
    (["psu"] : List String) ≠ [] ∧
    selInvariant (scan_op ["psu"] ⟨[], none⟩) = true :=
  ⟨by decide, c5_invariant_amended.1 ⟨[], none⟩ ["psu"] (by decide)⟩

/-- Claim C8: when a bulk state operation hits a device whose operation
raises, every device registered before and after the failing one still
receives its own call (the traversal splits around the failure), the failure
is reported against the failing device's name, and the operation returns
normally.  Stated for `_reset_all` and `_safe_all`. -/
theorem c8_bulk_continue :
    (∀ (pre : List (String × Device)) (n : String) (d : Device) (e : String)
        (post : List (String × Device)), resetDeviceResult d = .error e →
        reset_all (pre ++ (n, d) :: post) =
          reset_all pre ++ Report.failure n e :: reset_all post) ∧
    (∀ (pre : List (String × Device)) (n : String) (d : Device) (e : String)
        (post : List (String × Device)), safeDeviceResult n d = .error e →
        safe_all (pre ++ (n, d) :: post) =
          safe_all pre ++ Report.failure n e :: safe_all post) := by
  constructor
  · intro pre n d e post hd
    induction pre with
    | nil => simp [reset_all, hd]
    | cons p ps ih =>
      obtain ⟨pn, pd⟩ := p
      simp only [List.cons_append, List.append_eq, reset_all]
      rw [ih]
  · intro pre n d e post hd
    induction pre with
    | nil => simp [safe_all, hd]
    | cons p ps ih =>
      obtain ⟨pn, pd⟩ := p
      simp only [List.cons_append, List.append_eq, safe_all]
      rw [ih]

/-- A healthy DMM-style device whose `reset` succeeds. -/
def devOk : Device := ⟨none, none, none, none, some (.ok ())⟩

/-- A device whose `reset` raises. -/
def devBad : Device := ⟨none, none, none, none, some (.error "reset failed")⟩

/-- Claim C8 witness: the reset split applied to a three-device registry
whose middle device fails. -/
theorem c8_bulk_witness :
    resetDeviceResult devBad = .error "reset failed" ∧
    reset_all ([("dmmA", devOk)] ++ ("dmmB", devBad) :: [("dmmC", devOk)]) =
      reset_all [("dmmA", devOk)] ++
        Report.failure "dmmB" "reset failed" :: reset_all [("dmmC", devOk)] :=
  ⟨rfl, c8_bulk_continue.1 [("dmmA", devOk)] "dmmB" devBad "reset failed"
    [("dmmC", devOk)] rfl⟩

/-- Claim C9: the shutdown routine's device-safing side effects happen at
most once per process: after either shutdown entry point has run on a state,
running either entry point again performs no device operations (its report
list is empty). -/
theorem c9_cleanup_once (s : ShellState) :
    (cleanup_on_exit (cleanup_on_exit s).1).2 = [] ∧
    (cleanup_on_interrupt (cleanup_on_exit s).1).2 = [] ∧
    (cleanup_on_exit (cleanup_on_interrupt s).1).2 = [] ∧
    (cleanup_on_interrupt (cleanup_on_interrupt s).1).2 = [] := by
  cases hd : s.cleanup_done <;> cases he : s.registry.isEmpty <;>
    simp [cleanup_on_exit, cleanup_on_interrupt, hd, he]

/-- Claim C2 is a code bug: `shlex.split` raising on malformed quoting is
not caught anywhere on the script-expansion path, so expanding a script
holding a line with an unbalanced quote raises out of
`_expand_script_lines` (modelled as an `Except.error` escaping the
expander) instead of being reported with the command skipped. -/
theorem c2_parse_error_raises :
    shlexSplit "echo \"unclosed" = .error "No closing quotation" ∧
    expand_script_lines [] 0 ["echo \"unclosed"] [] = .error "No closing quotation" :=
  ⟨rfl, expand_tok_err (by decide)
    (show shlexSplit (strTrim "echo \"unclosed") = .error "No closing quotation" from rfl)
    [] (by omega) [] []⟩

/-- Claim C3 counterexample: in `for a,b 1,2 3 4,5 ... end` the
well-formed third value `4,5` is NOT expanded — the source `break`s out of
the value loop at the mismatching `3` — refuting the claim that expansion
continues with the remaining values. -/
theorem c3_counterexample :
    expand_script_lines [] 0
      ["for a,b 1,2 3 4,5", "echo $\x7ba\x7d-$\x7bb\x7d", "end", "after"] [] =
      .ok (["echo 1-2", "after"], [forMismatchMsg]) ∧
    (["echo 1-2", "after"] : List String).contains "echo 4-5" = false := by
  refine ⟨?_, rfl⟩
  have hsp1 : shlexSplit (strTrim "for a,b 1,2 3 4,5") =
      .ok ("for" :: "a,b" :: "1,2" :: ["3", "4,5"]) := rfl
  have hcb1 : cbErr ["echo $\x7ba\x7d-$\x7bb\x7d", "end", "after"] = none := rfl
  rw [expand_for_multi (by decide) hsp1 rfl rfl hcb1 [] (by omega) []]
  have hb : cbBlock ["echo $\x7ba\x7d-$\x7bb\x7d", "end", "after"] =
      ["echo $\x7ba\x7d-$\x7bb\x7d"] := rfl
  have hr : cbRest ["echo $\x7ba\x7d-$\x7bb\x7d", "end", "after"] = ["after"] := rfl
  have hfm1 : (forMultiEnvs ((splitOnChar ',' "a,b").filter (fun s => s ≠ "")) []
      ("1,2" :: ["3", "4,5"])).1 = [[("a", "1"), ("b", "2")]] := rfl
  have hfm2 : (forMultiEnvs ((splitOnChar ',' "a,b").filter (fun s => s ≠ "")) []
      ("1,2" :: ["3", "4,5"])).2 = [forMismatchMsg] := rfl
  rw [hb, hr, hfm1, hfm2, expandLoop_eq, expandEach_cons, expandEach_nil]
  have hspe : shlexSplit (strTrim "echo $\x7ba\x7d-$\x7bb\x7d") =
      .ok ("echo" :: ["$\x7ba\x7d-$\x7bb\x7d"]) := rfl
  rw [expand_plain (by decide) hspe (by decide) (by decide) (by decide) (by decide)
    (by decide) [] (by omega) [] [("a", "1"), ("b", "2")]]
  rw [expand_nil [] (by omega) [("a", "1"), ("b", "2")]]
  have hspa : shlexSplit (strTrim "after") = .ok ("after" :: []) := rfl
  rw [expand_plain (by decide) hspa (by decide) (by decide) (by decide) (by decide)
    (by decide) [] (by omega) [] []]
  rw [expand_nil [] (by omega) []]
  rfl

/-- Claim C3 (amended): a multi-variable `for` expands, in order, exactly
the value tokens strictly before the first arity-mismatching one, reports
the mismatch once, and STOPS the value loop there (the offending value and
every later value — well-formed or not — are skipped); lines after the
block are still processed.  Instantiated: in
`for a,b 1,2 3,4 5 6,7 ... end` the first two values expand, the loop stops
at `5`, and the trailing line still appears. -/
theorem c3_mismatch_stops :
    (∀ (keys : List String) (vars : Env) (good : List String) (bad : String)
        (rest : List String),
        (∀ v ∈ good, (splitOnChar ',' v).length = keys.length) →
        (splitOnChar ',' bad).length ≠ keys.length →
        forMultiEnvs keys vars (good ++ bad :: rest) =
          (good.map (fun v => forLocalEnv keys (splitOnChar ',' v) vars),
            [forMismatchMsg])) ∧
    expand_script_lines [] 0
      ["for a,b 1,2 3,4 5 6,7", "echo $\x7ba\x7d$\x7bb\x7d", "end", "tail"] [] =
      .ok (["echo 12", "echo 34", "tail"], [forMismatchMsg]) := by
  constructor
  · intro keys vars good bad rest
    induction good with
    | nil =>
      intro _ hbad
      simp only [List.nil_append, forMultiEnvs]
      rw [if_pos hbad]
      simp
    | cons v gs ih =>
      intro hgood hbad
      simp only [List.cons_append, List.append_eq, forMultiEnvs]
      rw [if_neg (fun hne => hne (hgood v (by simp)))]
      rw [ih (fun u hu => hgood u (by simp [hu])) hbad]
      simp
  · have hsp1 : shlexSplit (strTrim "for a,b 1,2 3,4 5 6,7") =
        .ok ("for" :: "a,b" :: "1,2" :: ["3,4", "5", "6,7"]) := rfl
    have hcb1 : cbErr ["echo $\x7ba\x7d$\x7bb\x7d", "end", "tail"] = none := rfl
    rw [expand_for_multi (by decide) hsp1 rfl rfl hcb1 [] (by omega) []]
    have hb : cbBlock ["echo $\x7ba\x7d$\x7bb\x7d", "end", "tail"] =
        ["echo $\x7ba\x7d$\x7bb\x7d"] := rfl
    have hr : cbRest ["echo $\x7ba\x7d$\x7bb\x7d", "end", "tail"] = ["tail"] := rfl
    have hfm1 : (forMultiEnvs ((splitOnChar ',' "a,b").filter (fun s => s ≠ "")) []
        ("1,2" :: ["3,4", "5", "6,7"])).1 =
        [[("a", "1"), ("b", "2")], [("a", "3"), ("b", "4")]] := rfl
    have hfm2 : (forMultiEnvs ((splitOnChar ',' "a,b").filter (fun s => s ≠ "")) []
        ("1,2" :: ["3,4", "5", "6,7"])).2 = [forMismatchMsg] := rfl
    rw [hb, hr, hfm1, hfm2, expandLoop_eq, expandEach_cons, expandEach_cons,
      expandEach_nil]
    have hspe : shlexSplit (strTrim "echo $\x7ba\x7d$\x7bb\x7d") =
        .ok ("echo" :: ["$\x7ba\x7d$\x7bb\x7d"]) := rfl
    rw [expand_plain (by decide) hspe (by decide) (by decide) (by decide) (by decide)
      (by decide) [] (by omega) [] [("a", "1"), ("b", "2")]]
    rw [expand_nil [] (by omega) [("a", "1"), ("b", "2")]]
    rw [expand_plain (by decide) hspe (by decide) (by decide) (by decide) (by decide)
      (by decide) [] (by omega) [] [("a", "3"), ("b", "4")]]
    rw [expand_nil [] (by omega) [("a", "3"), ("b", "4")]]
    have hspt : shlexSplit (strTrim "tail") = .ok ("tail" :: []) := rfl
    rw [expand_plain (by decide) hspt (by decide) (by decide) (by decide) (by decide)
      (by decide) [] (by omega) [] []]
    rw [expand_nil [] (by omega) []]
    rfl

/-- Claim C3 witness: the amended stop-at-mismatch statement applied to
variable list `a,b` with one well-formed value before the mismatch. -/
theorem c3_mismatch_witness :
    forMultiEnvs ["a", "b"] [] (["1,2"] ++ "3" :: ["4,5"]) =
      (["1,2"].map (fun v => forLocalEnv ["a", "b"] (splitOnChar ',' v) []),
        [forMismatchMsg]) :=
  c3_mismatch_stops.1 ["a", "b"] [] ["1,2"] "3" ["4,5"] (by decide) (by decide)

/-- Claim C10 counterexample: substitution is sequential over the
environment in insertion order, not a one-pass replacement of each
occurrence by its bound value's string form: with `a` bound to the literal
text `$\x7bb\x7d` and `b` bound to `X`, the text `$\x7ba\x7d` substitutes to
`X`, not to `a`'s bound value. -/
theorem c10_counterexample :
    substitute_vars "$\x7ba\x7d" [("a", "$\x7bb\x7d"), ("b", "X")] = "X" ∧
    ("X" : String) ≠ "$\x7bb\x7d" :=
  ⟨rfl, by decide⟩

/-- Claim C10 (amended): variable substitution is total and never fails,
applying the bindings sequentially in environment (insertion) order — so a
substituted value that itself contains a later binding's placeholder is
substituted again, and the result can differ from replacing each original
occurrence by its bound value — while a placeholder matching no binding
passes through verbatim; consequently expanding any well-tokenized
non-directive line yields exactly the substituted line and never raises. -/
theorem c10_subst_amended :
    (∀ (scripts : Scripts) (vars : Env) (l t : String) (tRest : List String),
        strTrim l = l →
        ¬(l = "" ∨ strStartsWith l "#" = true) →
        shlexSplit l = .ok (t :: tRest) →
        strLower t ≠ "set" → strLower t ≠ "call" → strLower t ≠ "repeat" →
        strLower t ≠ "for" → strLower t ≠ "end" →
        expand_script_lines scripts 0 [l] vars = .ok ([substitute_vars l vars], [])) ∧
    substitute_vars "$\x7ba\x7d" [("a", "$\x7bb\x7d"), ("b", "X")] = "X" ∧
    substitute_vars "echo $\x7bundef\x7d" [("x", "5")] = "echo $\x7bundef\x7d" := by
  refine ⟨?_, rfl, rfl⟩
  intro scripts vars l t tRest htrim hbl hsp hset hcall hrep hfor hend
  rw [expand_plain (by rw [htrim]; exact hbl) (by rw [htrim]; exact hsp) hset hcall
    hrep hfor hend scripts (by omega) [] vars]
  rw [expand_nil scripts (by omega) vars]
  rw [consOut_ok, htrim]

/-- Claim C10 witness: the amended statement applied to a line referencing
an unbound variable, which passes through verbatim. -/
theorem c10_subst_witness :
    expand_script_lines [] 0 ["echo $\x7bundef\x7d"] [("x", "5")] =
      .ok (["echo $\x7bundef\x7d"], []) :=
  c10_subst_amended.1 [] [("x", "5")] "echo $\x7bundef\x7d" "echo" ["$\x7bundef\x7d"]
    rfl (by decide) rfl (by decide) (by decide) (by decide) (by decide) (by decide)

/-- A library of scripts forming a linear `call` chain: each `c<i>` emits a
line, calls `c<i+1>`, then emits another line; `c11` emits the payload. -/
def chainScripts : Scripts :=
  [("c0", ["p0", "call c1", "q0"]),
   ("c1", ["p1", "call c2", "q1"]),
   ("c2", ["p2", "call c3", "q2"]),
   ("c3", ["p3", "call c4", "q3"]),
   ("c4", ["p4", "call c5", "q4"]),
   ("c5", ["p5", "call c6", "q5"]),
   ("c6", ["p6", "call c7", "q6"]),
   ("c7", ["p7", "call c8", "q7"]),
   ("c8", ["p8", "call c9", "q8"]),
   ("c9", ["p9", "call c10", "q9"]),
   ("c10", ["p10", "call c11", "q10"]),
   ("c11", ["payload"])]

/-- Claim C6: a `call` chain nested 10 deep expands fully (running `c1`,
whose expansion performs the 10 nested calls `c2` through `c11`, emits the
innermost payload), while the same chain one level deeper (running `c0`,
11 nested calls) hits the maximum-call-depth error at the 11th nesting
level: the offending call contributes no lines and aborts only itself —
every sibling line before and after it, at every level, remains in the
output, and the depth error is reported. -/
theorem c6_call_depth :
    expand_script_lines chainScripts 0 ["p1", "call c2", "q1"] [] =
      .ok (["p1", "p2", "p3", "p4", "p5", "p6", "p7", "p8", "p9", "p10", "payload", "q10", "q9", "q8", "q7", "q6", "q5", "q4", "q3", "q2", "q1"], []) ∧
    expand_script_lines chainScripts 0 ["p0", "call c1", "q0"] [] =
      .ok (["p0", "p1", "p2", "p3", "p4", "p5", "p6", "p7", "p8", "p9", "p10", "q10", "q9", "q8", "q7", "q6", "q5", "q4", "q3", "q2", "q1", "q0"], [maxDepthMsg]) := by
  have hS11 : expand_script_lines chainScripts 10 ["payload"] [] =
      .ok (["payload"], []) := by
    have h1 : shlexSplit (strTrim "payload") = .ok ("payload" :: []) := rfl
    rw [expand_plain (by decide) h1 (by decide) (by decide) (by decide) (by decide)
      (by decide) chainScripts (by omega) [] []]
    rw [expand_nil chainScripts (by omega) []]
    simp [consOut, substitute_vars_nil, show strTrim "payload" = "payload" from rfl]
  have hS10 : expand_script_lines chainScripts 9 ["p10", "call c11", "q10"] [] =
      .ok (["p10", "payload", "q10"], []) := by
    have h1 : shlexSplit (strTrim "p10") = .ok ("p10" :: []) := rfl
    rw [expand_plain (by decide) h1 (by decide) (by decide) (by decide) (by decide)
      (by decide) chainScripts (by omega) ["call c11", "q10"] []]
    have h2 : shlexSplit (strTrim "call c11") = .ok ("call" :: "c11" :: []) := rfl
    have h3 : lookupScript chainScripts "c11" = some ["payload"] := rfl
    rw [expand_call_found (by decide) h2 rfl h3 (by omega) ["q10"] []]
    have h4 : shlexSplit (strTrim "q10") = .ok ("q10" :: []) := rfl
    rw [expand_plain (by decide) h4 (by decide) (by decide) (by decide) (by decide)
      (by decide) chainScripts (by omega) [] []]
    rw [expand_nil chainScripts (by omega) []]
    simp [hS11, callParams_nil, substitute_vars_nil, consOut, mergeOutE,
      show strTrim "p10" = "p10" from rfl, show strTrim "q10" = "q10" from rfl]
  have hS9 : expand_script_lines chainScripts 8 ["p9", "call c10", "q9"] [] =
      .ok (["p9", "p10", "payload", "q10", "q9"], []) := by
    have h1 : shlexSplit (strTrim "p9") = .ok ("p9" :: []) := rfl
    rw [expand_plain (by decide) h1 (by decide) (by decide) (by decide) (by decide)
      (by decide) chainScripts (by omega) ["call c10", "q9"] []]
    have h2 : shlexSplit (strTrim "call c10") = .ok ("call" :: "c10" :: []) := rfl
    have h3 : lookupScript chainScripts "c10" = some ["p10", "call c11", "q10"] := rfl
    rw [expand_call_found (by decide) h2 rfl h3 (by omega) ["q9"] []]
    have h4 : shlexSplit (strTrim "q9") = .ok ("q9" :: []) := rfl
    rw [expand_plain (by decide) h4 (by decide) (by decide) (by decide) (by decide)
      (by decide) chainScripts (by omega) [] []]
    rw [expand_nil chainScripts (by omega) []]
    simp [hS10, callParams_nil, substitute_vars_nil, consOut, mergeOutE,
      show strTrim "p9" = "p9" from rfl, show strTrim "q9" = "q9" from rfl]
  have hS8 : expand_script_lines chainScripts 7 ["p8", "call c9", "q8"] [] =
      .ok (["p8", "p9", "p10", "payload", "q10", "q9", "q8"], []) := by
    have h1 : shlexSplit (strTrim "p8") = .ok ("p8" :: []) := rfl
    rw [expand_plain (by decide) h1 (by decide) (by decide) (by decide) (by decide)
      (by decide) chainScripts (by omega) ["call c9", "q8"] []]
    have h2 : shlexSplit (strTrim "call c9") = .ok ("call" :: "c9" :: []) := rfl
    have h3 : lookupScript chainScripts "c9" = some ["p9", "call c10", "q9"] := rfl
    rw [expand_call_found (by decide) h2 rfl h3 (by omega) ["q8"] []]
    have h4 : shlexSplit (strTrim "q8") = .ok ("q8" :: []) := rfl
    rw [expand_plain (by decide) h4 (by decide) (by decide) (by decide) (by decide)
      (by decide) chainScripts (by omega) [] []]
    rw [expand_nil chainScripts (by omega) []]
    simp [hS9, callParams_nil, substitute_vars_nil, consOut, mergeOutE,
      show strTrim "p8" = "p8" from rfl, show strTrim "q8" = "q8" from rfl]
  have hS7 : expand_script_lines chainScripts 6 ["p7", "call c8", "q7"] [] =
      .ok (["p7", "p8", "p9", "p10", "payload", "q10", "q9", "q8", "q7"], []) := by
    have h1 : shlexSplit (strTrim "p7") = .ok ("p7" :: []) := rfl
    rw [expand_plain (by decide) h1 (by decide) (by decide) (by decide) (by decide)
      (by decide) chainScripts (by omega) ["call c8", "q7"] []]
    have h2 : shlexSplit (strTrim "call c8") = .ok ("call" :: "c8" :: []) := rfl
    have h3 : lookupScript chainScripts "c8" = some ["p8", "call c9", "q8"] := rfl
    rw [expand_call_found (by decide) h2 rfl h3 (by omega) ["q7"] []]
    have h4 : shlexSplit (strTrim "q7") = .ok ("q7" :: []) := rfl
    rw [expand_plain (by decide) h4 (by decide) (by decide) (by decide) (by decide)
      (by decide) chainScripts (by omega) [] []]
    rw [expand_nil chainScripts (by omega) []]
    simp [hS8, callParams_nil, substitute_vars_nil, consOut, mergeOutE,
      show strTrim "p7" = "p7" from rfl, show strTrim "q7" = "q7" from rfl]
  have hS6 : expand_script_lines chainScripts 5 ["p6", "call c7", "q6"] [] =
      .ok (["p6", "p7", "p8", "p9", "p10", "payload", "q10", "q9", "q8", "q7", "q6"], []) := by
    have h1 : shlexSplit (strTrim "p6") = .ok ("p6" :: []) := rfl
    rw [expand_plain (by decide) h1 (by decide) (by decide) (by decide) (by decide)
      (by decide) chainScripts (by omega) ["call c7", "q6"] []]
    have h2 : shlexSplit (strTrim "call c7") = .ok ("call" :: "c7" :: []) := rfl
    have h3 : lookupScript chainScripts "c7" = some ["p7", "call c8", "q7"] := rfl
    rw [expand_call_found (by decide) h2 rfl h3 (by omega) ["q6"] []]
    have h4 : shlexSplit (strTrim "q6") = .ok ("q6" :: []) := rfl
    rw [expand_plain (by decide) h4 (by decide) (by decide) (by decide) (by decide)
      (by decide) chainScripts (by omega) [] []]
    rw [expand_nil chainScripts (by omega) []]
    simp [hS7, callParams_nil, substitute_vars_nil, consOut, mergeOutE,
      show strTrim "p6" = "p6" from rfl, show strTrim "q6" = "q6" from rfl]
  have hS5 : expand_script_lines chainScripts 4 ["p5", "call c6", "q5"] [] =
      .ok (["p5", "p6", "p7", "p8", "p9", "p10", "payload", "q10", "q9", "q8", "q7", "q6", "q5"], []) := by
    have h1 : shlexSplit (strTrim "p5") = .ok ("p5" :: []) := rfl
    rw [expand_plain (by decide) h1 (by decide) (by decide) (by decide) (by decide)
      (by decide) chainScripts (by omega) ["call c6", "q5"] []]
    have h2 : shlexSplit (strTrim "call c6") = .ok ("call" :: "c6" :: []) := rfl
    have h3 : lookupScript chainScripts "c6" = some ["p6", "call c7", "q6"] := rfl
    rw [expand_call_found (by decide) h2 rfl h3 (by omega) ["q5"] []]
    have h4 : shlexSplit (strTrim "q5") = .ok ("q5" :: []) := rfl
    rw [expand_plain (by decide) h4 (by decide) (by decide) (by decide) (by decide)
      (by decide) chainScripts (by omega) [] []]
    rw [expand_nil chainScripts (by omega) []]
    simp [hS6, callParams_nil, substitute_vars_nil, consOut, mergeOutE,
      show strTrim "p5" = "p5" from rfl, show strTrim "q5" = "q5" from rfl]
  have hS4 : expand_script_lines chainScripts 3 ["p4", "call c5", "q4"] [] =
      .ok (["p4", "p5", "p6", "p7", "p8", "p9", "p10", "payload", "q10", "q9", "q8", "q7", "q6", "q5", "q4"], []) := by
    have h1 : shlexSplit (strTrim "p4") = .ok ("p4" :: []) := rfl
    rw [expand_plain (by decide) h1 (by decide) (by decide) (by decide) (by decide)
      (by decide) chainScripts (by omega) ["call c5", "q4"] []]
    have h2 : shlexSplit (strTrim "call c5") = .ok ("call" :: "c5" :: []) := rfl
    have h3 : lookupScript chainScripts "c5" = some ["p5", "call c6", "q5"] := rfl
    rw [expand_call_found (by decide) h2 rfl h3 (by omega) ["q4"] []]
    have h4 : shlexSplit (strTrim "q4") = .ok ("q4" :: []) := rfl
    rw [expand_plain (by decide) h4 (by decide) (by decide) (by decide) (by decide)
      (by decide) chainScripts (by omega) [] []]
    rw [expand_nil chainScripts (by omega) []]
    simp [hS5, callParams_nil, substitute_vars_nil, consOut, mergeOutE,
      show strTrim "p4" = "p4" from rfl, show strTrim "q4" = "q4" from rfl]
  have hS3 : expand_script_lines chainScripts 2 ["p3", "call c4", "q3"] [] =
      .ok (["p3", "p4", "p5", "p6", "p7", "p8", "p9", "p10", "payload", "q10", "q9", "q8", "q7", "q6", "q5", "q4", "q3"], []) := by
    have h1 : shlexSplit (strTrim "p3") = .ok ("p3" :: []) := rfl
    rw [expand_plain (by decide) h1 (by decide) (by decide) (by decide) (by decide)
      (by decide) chainScripts (by omega) ["call c4", "q3"] []]
    have h2 : shlexSplit (strTrim "call c4") = .ok ("call" :: "c4" :: []) := rfl
    have h3 : lookupScript chainScripts "c4" = some ["p4", "call c5", "q4"] := rfl
    rw [expand_call_found (by decide) h2 rfl h3 (by omega) ["q3"] []]
    have h4 : shlexSplit (strTrim "q3") = .ok ("q3" :: []) := rfl
    rw [expand_plain (by decide) h4 (by decide) (by decide) (by decide) (by decide)
      (by decide) chainScripts (by omega) [] []]
    rw [expand_nil chainScripts (by omega) []]
    simp [hS4, callParams_nil, substitute_vars_nil, consOut, mergeOutE,
      show strTrim "p3" = "p3" from rfl, show strTrim "q3" = "q3" from rfl]
  have hS2 : expand_script_lines chainScripts 1 ["p2", "call c3", "q2"] [] =
      .ok (["p2", "p3", "p4", "p5", "p6", "p7", "p8", "p9", "p10", "payload", "q10", "q9", "q8", "q7", "q6", "q5", "q4", "q3", "q2"], []) := by
    have h1 : shlexSplit (strTrim "p2") = .ok ("p2" :: []) := rfl
    rw [expand_plain (by decide) h1 (by decide) (by decide) (by decide) (by decide)
      (by decide) chainScripts (by omega) ["call c3", "q2"] []]
    have h2 : shlexSplit (strTrim "call c3") = .ok ("call" :: "c3" :: []) := rfl
    have h3 : lookupScript chainScripts "c3" = some ["p3", "call c4", "q3"] := rfl
    rw [expand_call_found (by decide) h2 rfl h3 (by omega) ["q2"] []]
    have h4 : shlexSplit (strTrim "q2") = .ok ("q2" :: []) := rfl
    rw [expand_plain (by decide) h4 (by decide) (by decide) (by decide) (by decide)
      (by decide) chainScripts (by omega) [] []]
    rw [expand_nil chainScripts (by omega) []]
    simp [hS3, callParams_nil, substitute_vars_nil, consOut, mergeOutE,
      show strTrim "p2" = "p2" from rfl, show strTrim "q2" = "q2" from rfl]
  have hS1 : expand_script_lines chainScripts 0 ["p1", "call c2", "q1"] [] =
      .ok (["p1", "p2", "p3", "p4", "p5", "p6", "p7", "p8", "p9", "p10", "payload", "q10", "q9", "q8", "q7", "q6", "q5", "q4", "q3", "q2", "q1"], []) := by
    have h1 : shlexSplit (strTrim "p1") = .ok ("p1" :: []) := rfl
    rw [expand_plain (by decide) h1 (by decide) (by decide) (by decide) (by decide)
      (by decide) chainScripts (by omega) ["call c2", "q1"] []]
    have h2 : shlexSplit (strTrim "call c2") = .ok ("call" :: "c2" :: []) := rfl
    have h3 : lookupScript chainScripts "c2" = some ["p2", "call c3", "q2"] := rfl
    rw [expand_call_found (by decide) h2 rfl h3 (by omega) ["q1"] []]
    have h4 : shlexSplit (strTrim "q1") = .ok ("q1" :: []) := rfl
    rw [expand_plain (by decide) h4 (by decide) (by decide) (by decide) (by decide)
      (by decide) chainScripts (by omega) [] []]
    rw [expand_nil chainScripts (by omega) []]
    simp [hS2, callParams_nil, substitute_vars_nil, consOut, mergeOutE,
      show strTrim "p1" = "p1" from rfl, show strTrim "q1" = "q1" from rfl]
  have hF11 : expand_script_lines chainScripts 11 ["payload"] [] =
      .ok ([], [maxDepthMsg]) :=
    expand_maxdepth chainScripts (by omega) ["payload"] []
  have hF10 : expand_script_lines chainScripts 10 ["p10", "call c11", "q10"] [] =
      .ok (["p10", "q10"], [maxDepthMsg]) := by
    have h1 : shlexSplit (strTrim "p10") = .ok ("p10" :: []) := rfl
    rw [expand_plain (by decide) h1 (by decide) (by decide) (by decide) (by decide)
      (by decide) chainScripts (by omega) ["call c11", "q10"] []]
    have h2 : shlexSplit (strTrim "call c11") = .ok ("call" :: "c11" :: []) := rfl
    have h3 : lookupScript chainScripts "c11" = some ["payload"] := rfl
    rw [expand_call_found (by decide) h2 rfl h3 (by omega) ["q10"] []]
    have h4 : shlexSplit (strTrim "q10") = .ok ("q10" :: []) := rfl
    rw [expand_plain (by decide) h4 (by decide) (by decide) (by decide) (by decide)
      (by decide) chainScripts (by omega) [] []]
    rw [expand_nil chainScripts (by omega) []]
    simp [hF11, callParams_nil, substitute_vars_nil, consOut, mergeOutE,
      show strTrim "p10" = "p10" from rfl, show strTrim "q10" = "q10" from rfl]
  have hF9 : expand_script_lines chainScripts 9 ["p9", "call c10", "q9"] [] =
      .ok (["p9", "p10", "q10", "q9"], [maxDepthMsg]) := by
    have h1 : shlexSplit (strTrim "p9") = .ok ("p9" :: []) := rfl
    rw [expand_plain (by decide) h1 (by decide) (by decide) (by decide) (by decide)
      (by decide) chainScripts (by omega) ["call c10", "q9"] []]
    have h2 : shlexSplit (strTrim "call c10") = .ok ("call" :: "c10" :: []) := rfl
    have h3 : lookupScript chainScripts "c10" = some ["p10", "call c11", "q10"] := rfl
    rw [expand_call_found (by decide) h2 rfl h3 (by omega) ["q9"] []]
    have h4 : shlexSplit (strTrim "q9") = .ok ("q9" :: []) := rfl
    rw [expand_plain (by decide) h4 (by decide) (by decide) (by decide) (by decide)
      (by decide) chainScripts (by omega) [] []]
    rw [expand_nil chainScripts (by omega) []]
    simp [hF10, callParams_nil, substitute_vars_nil, consOut, mergeOutE,
      show strTrim "p9" = "p9" from rfl, show strTrim "q9" = "q9" from rfl]
  have hF8 : expand_script_lines chainScripts 8 ["p8", "call c9", "q8"] [] =
      .ok (["p8", "p9", "p10", "q10", "q9", "q8"], [maxDepthMsg]) := by
    have h1 : shlexSplit (strTrim "p8") = .ok ("p8" :: []) := rfl
    rw [expand_plain (by decide) h1 (by decide) (by decide) (by decide) (by decide)
      (by decide) chainScripts (by omega) ["call c9", "q8"] []]
    have h2 : shlexSplit (strTrim "call c9") = .ok ("call" :: "c9" :: []) := rfl
    have h3 : lookupScript chainScripts "c9" = some ["p9", "call c10", "q9"] := rfl
    rw [expand_call_found (by decide) h2 rfl h3 (by omega) ["q8"] []]
    have h4 : shlexSplit (strTrim "q8") = .ok ("q8" :: []) := rfl
    rw [expand_plain (by decide) h4 (by decide) (by decide) (by decide) (by decide)
      (by decide) chainScripts (by omega) [] []]
    rw [expand_nil chainScripts (by omega) []]
    simp [hF9, callParams_nil, substitute_vars_nil, consOut, mergeOutE,
      show strTrim "p8" = "p8" from rfl, show strTrim "q8" = "q8" from rfl]
  have hF7 : expand_script_lines chainScripts 7 ["p7", "call c8", "q7"] [] =
      .ok (["p7", "p8", "p9", "p10", "q10", "q9", "q8", "q7"], [maxDepthMsg]) := by
    have h1 : shlexSplit (strTrim "p7") = .ok ("p7" :: []) := rfl
    rw [expand_plain (by decide) h1 (by decide) (by decide) (by decide) (by decide)
      (by decide) chainScripts (by omega) ["call c8", "q7"] []]
    have h2 : shlexSplit (strTrim "call c8") = .ok ("call" :: "c8" :: []) := rfl
    have h3 : lookupScript chainScripts "c8" = some ["p8", "call c9", "q8"] := rfl
    rw [expand_call_found (by decide) h2 rfl h3 (by omega) ["q7"] []]
    have h4 : shlexSplit (strTrim "q7") = .ok ("q7" :: []) := rfl
    rw [expand_plain (by decide) h4 (by decide) (by decide) (by decide) (by decide)
      (by decide) chainScripts (by omega) [] []]
    rw [expand_nil chainScripts (by omega) []]
    simp [hF8, callParams_nil, substitute_vars_nil, consOut, mergeOutE,
      show strTrim "p7" = "p7" from rfl, show strTrim "q7" = "q7" from rfl]
  have hF6 : expand_script_lines chainScripts 6 ["p6", "call c7", "q6"] [] =
      .ok (["p6", "p7", "p8", "p9", "p10", "q10", "q9", "q8", "q7", "q6"], [maxDepthMsg]) := by
    have h1 : shlexSplit (strTrim "p6") = .ok ("p6" :: []) := rfl
    rw [expand_plain (by decide) h1 (by decide) (by decide) (by decide) (by decide)
      (by decide) chainScripts (by omega) ["call c7", "q6"] []]
    have h2 : shlexSplit (strTrim "call c7") = .ok ("call" :: "c7" :: []) := rfl
    have h3 : lookupScript chainScripts "c7" = some ["p7", "call c8", "q7"] := rfl
    rw [expand_call_found (by decide) h2 rfl h3 (by omega) ["q6"] []]
    have h4 : shlexSplit (strTrim "q6") = .ok ("q6" :: []) := rfl
    rw [expand_plain (by decide) h4 (by decide) (by decide) (by decide) (by decide)
      (by decide) chainScripts (by omega) [] []]
    rw [expand_nil chainScripts (by omega) []]
    simp [hF7, callParams_nil, substitute_vars_nil, consOut, mergeOutE,
      show strTrim "p6" = "p6" from rfl, show strTrim "q6" = "q6" from rfl]
  have hF5 : expand_script_lines chainScripts 5 ["p5", "call c6", "q5"] [] =
      .ok (["p5", "p6", "p7", "p8", "p9", "p10", "q10", "q9", "q8", "q7", "q6", "q5"], [maxDepthMsg]) := by
    have h1 : shlexSplit (strTrim "p5") = .ok ("p5" :: []) := rfl
    rw [expand_plain (by decide) h1 (by decide) (by decide) (by decide) (by decide)
      (by decide) chainScripts (by omega) ["call c6", "q5"] []]
    have h2 : shlexSplit (strTrim "call c6") = .ok ("call" :: "c6" :: []) := rfl
    have h3 : lookupScript chainScripts "c6" = some ["p6", "call c7", "q6"] := rfl
    rw [expand_call_found (by decide) h2 rfl h3 (by omega) ["q5"] []]
    have h4 : shlexSplit (strTrim "q5") = .ok ("q5" :: []) := rfl
    rw [expand_plain (by decide) h4 (by decide) (by decide) (by decide) (by decide)
      (by decide) chainScripts (by omega) [] []]
    rw [expand_nil chainScripts (by omega) []]
    simp [hF6, callParams_nil, substitute_vars_nil, consOut, mergeOutE,
      show strTrim "p5" = "p5" from rfl, show strTrim "q5" = "q5" from rfl]
  have hF4 : expand_script_lines chainScripts 4 ["p4", "call c5", "q4"] [] =
      .ok (["p4", "p5", "p6", "p7", "p8", "p9", "p10", "q10", "q9", "q8", "q7", "q6", "q5", "q4"], [maxDepthMsg]) := by
    have h1 : shlexSplit (strTrim "p4") = .ok ("p4" :: []) := rfl
    rw [expand_plain (by decide) h1 (by decide) (by decide) (by decide) (by decide)
      (by decide) chainScripts (by omega) ["call c5", "q4"] []]
    have h2 : shlexSplit (strTrim "call c5") = .ok ("call" :: "c5" :: []) := rfl
    have h3 : lookupScript chainScripts "c5" = some ["p5", "call c6", "q5"] := rfl
    rw [expand_call_found (by decide) h2 rfl h3 (by omega) ["q4"] []]
    have h4 : shlexSplit (strTrim "q4") = .ok ("q4" :: []) := rfl
    rw [expand_plain (by decide) h4 (by decide) (by decide) (by decide) (by decide)
      (by decide) chainScripts (by omega) [] []]
    rw [expand_nil chainScripts (by omega) []]
    simp [hF5, callParams_nil, substitute_vars_nil, consOut, mergeOutE,
      show strTrim "p4" = "p4" from rfl, show strTrim "q4" = "q4" from rfl]
  have hF3 : expand_script_lines chainScripts 3 ["p3", "call c4", "q3"] [] =
      .ok (["p3", "p4", "p5", "p6", "p7", "p8", "p9", "p10", "q10", "q9", "q8", "q7", "q6", "q5", "q4", "q3"], [maxDepthMsg]) := by
    have h1 : shlexSplit (strTrim "p3") = .ok ("p3" :: []) := rfl
    rw [expand_plain (by decide) h1 (by decide) (by decide) (by decide) (by decide)
      (by decide) chainScripts (by omega) ["call c4", "q3"] []]
    have h2 : shlexSplit (strTrim "call c4") = .ok ("call" :: "c4" :: []) := rfl
    have h3 : lookupScript chainScripts "c4" = some ["p4", "call c5", "q4"] := rfl
    rw [expand_call_found (by decide) h2 rfl h3 (by omega) ["q3"] []]
    have h4 : shlexSplit (strTrim "q3") = .ok ("q3" :: []) := rfl
    rw [expand_plain (by decide) h4 (by decide) (by decide) (by decide) (by decide)
      (by decide) chainScripts (by omega) [] []]
    rw [expand_nil chainScripts (by omega) []]
    simp [hF4, callParams_nil, substitute_vars_nil, consOut, mergeOutE,
      show strTrim "p3" = "p3" from rfl, show strTrim "q3" = "q3" from rfl]
  have hF2 : expand_script_lines chainScripts 2 ["p2", "call c3", "q2"] [] =
      .ok (["p2", "p3", "p4", "p5", "p6", "p7", "p8", "p9", "p10", "q10", "q9", "q8", "q7", "q6", "q5", "q4", "q3", "q2"], [maxDepthMsg]) := by
    have h1 : shlexSplit (strTrim "p2") = .ok ("p2" :: []) := rfl
    rw [expand_plain (by decide) h1 (by decide) (by decide) (by decide) (by decide)
      (by decide) chainScripts (by omega) ["call c3", "q2"] []]
    have h2 : shlexSplit (strTrim "call c3") = .ok ("call" :: "c3" :: []) := rfl
    have h3 : lookupScript chainScripts "c3" = some ["p3", "call c4", "q3"] := rfl
    rw [expand_call_found (by decide) h2 rfl h3 (by omega) ["q2"] []]
    have h4 : shlexSplit (strTrim "q2") = .ok ("q2" :: []) := rfl
    rw [expand_plain (by decide) h4 (by decide) (by decide) (by decide) (by decide)
      (by decide) chainScripts (by omega) [] []]
    rw [expand_nil chainScripts (by omega) []]
    simp [hF3, callParams_nil, substitute_vars_nil, consOut, mergeOutE,
      show strTrim "p2" = "p2" from rfl, show strTrim "q2" = "q2" from rfl]
  have hF1 : expand_script_lines chainScripts 1 ["p1", "call c2", "q1"] [] =
      .ok (["p1", "p2", "p3", "p4", "p5", "p6", "p7", "p8", "p9", "p10", "q10", "q9", "q8", "q7", "q6", "q5", "q4", "q3", "q2", "q1"], [maxDepthMsg]) := by
    have h1 : shlexSplit (strTrim "p1") = .ok ("p1" :: []) := rfl
    rw [expand_plain (by decide) h1 (by decide) (by decide) (by decide) (by decide)
      (by decide) chainScripts (by omega) ["call c2", "q1"] []]
    have h2 : shlexSplit (strTrim "call c2") = .ok ("call" :: "c2" :: []) := rfl
    have h3 : lookupScript chainScripts "c2" = some ["p2", "call c3", "q2"] := rfl
    rw [expand_call_found (by decide) h2 rfl h3 (by omega) ["q1"] []]
    have h4 : shlexSplit (strTrim "q1") = .ok ("q1" :: []) := rfl
    rw [expand_plain (by decide) h4 (by decide) (by decide) (by decide) (by decide)
      (by decide) chainScripts (by omega) [] []]
    rw [expand_nil chainScripts (by omega) []]
    simp [hF2, callParams_nil, substitute_vars_nil, consOut, mergeOutE,
      show strTrim "p1" = "p1" from rfl, show strTrim "q1" = "q1" from rfl]
  have hF0 : expand_script_lines chainScripts 0 ["p0", "call c1", "q0"] [] =
      .ok (["p0", "p1", "p2", "p3", "p4", "p5", "p6", "p7", "p8", "p9", "p10", "q10", "q9", "q8", "q7", "q6", "q5", "q4", "q3", "q2", "q1", "q0"], [maxDepthMsg]) := by
    have h1 : shlexSplit (strTrim "p0") = .ok ("p0" :: []) := rfl
    rw [expand_plain (by decide) h1 (by decide) (by decide) (by decide) (by decide)
      (by decide) chainScripts (by omega) ["call c1", "q0"] []]
    have h2 : shlexSplit (strTrim "call c1") = .ok ("call" :: "c1" :: []) := rfl
    have h3 : lookupScript chainScripts "c1" = some ["p1", "call c2", "q1"] := rfl
    rw [expand_call_found (by decide) h2 rfl h3 (by omega) ["q0"] []]
    have h4 : shlexSplit (strTrim "q0") = .ok ("q0" :: []) := rfl
    rw [expand_plain (by decide) h4 (by decide) (by decide) (by decide) (by decide)
      (by decide) chainScripts (by omega) [] []]
    rw [expand_nil chainScripts (by omega) []]
    simp [hF1, callParams_nil, substitute_vars_nil, consOut, mergeOutE,
      show strTrim "p0" = "p0" from rfl, show strTrim "q0" = "q0" from rfl]
  exact ⟨hS1, hF0⟩

/-- Claim C7: for every environment, a `repeat 3` block whose body reads
`$\x7bx\x7d` and then sets `x` expands each iteration on a fresh copy of the
caller's environment: every iteration (and the line after the loop) sees
the caller's original binding of `x` — the `set` performed inside one
iteration is visible neither to the next iteration nor after the loop. -/
theorem c7_repeat_fresh_env (vars : Env) :
    expand_script_lines [] 0
      ["repeat 3", "echo $\x7bx\x7d", "set x 1", "end", "echo $\x7bx\x7d"] vars =
      .ok ([substitute_vars "echo $\x7bx\x7d" vars, substitute_vars "echo $\x7bx\x7d" vars,
        substitute_vars "echo $\x7bx\x7d" vars, substitute_vars "echo $\x7bx\x7d" vars],
        []) := by
  have hblock : ∀ env : Env,
      expand_script_lines [] 0 ["echo $\x7bx\x7d", "set x 1"] env =
        .ok ([substitute_vars "echo $\x7bx\x7d" env], []) := by
    intro env
    have hspe : shlexSplit (strTrim "echo $\x7bx\x7d") =
        .ok ("echo" :: ["$\x7bx\x7d"]) := rfl
    rw [expand_plain (by decide) hspe (by decide) (by decide) (by decide) (by decide)
      (by decide) [] (by omega) ["set x 1"] env]
    have hsps : shlexSplit (strTrim "set x 1") = .ok ("set" :: "x" :: "1" :: []) := rfl
    rw [expand_set (by decide) hsps rfl [] (by omega) [] env]
    rw [expand_nil [] (by omega) _]
    rfl
  have hspr : shlexSplit (strTrim "repeat 3") = .ok ("repeat" :: "3" :: []) := rfl
  have hcnt : parseIntStr "3" = some 3 := rfl
  have hcb : cbErr ["echo $\x7bx\x7d", "set x 1", "end", "echo $\x7bx\x7d"] = none := rfl
  rw [expand_repeat (by decide) hspr rfl hcnt hcb [] (by omega) vars]
  have hb : cbBlock ["echo $\x7bx\x7d", "set x 1", "end", "echo $\x7bx\x7d"] =
      ["echo $\x7bx\x7d", "set x 1"] := rfl
  have hrs : cbRest ["echo $\x7bx\x7d", "set x 1", "end", "echo $\x7bx\x7d"] =
      ["echo $\x7bx\x7d"] := rfl
  have hrep3 : List.replicate (Int.toNat 3) vars = [vars, vars, vars] := rfl
  rw [hb, hrs, hrep3, expandLoop_eq, expandEach_cons, expandEach_cons, expandEach_cons,
    expandEach_nil, hblock vars]
  have hspe2 : shlexSplit (strTrim "echo $\x7bx\x7d") =
      .ok ("echo" :: ["$\x7bx\x7d"]) := rfl
  rw [expand_plain (by decide) hspe2 (by decide) (by decide) (by decide) (by decide)
    (by decide) [] (by omega) [] vars]
  rw [expand_nil [] (by omega) vars]
  simp [mergeOutE, consOut, show strTrim "echo $\x7bx\x7d" = "echo $\x7bx\x7d" from rfl]
